import Mathlib

/-!
Shallow embedding of the procedural Kolam pattern synthesis engine of
`src/ai_kolam_generator.py` (class `EnhancedKolamGenerator`), together with
proofs and refutations of the specification claims about it.

Modelling conventions.

* Python integers are `ℤ` (loop counters are `ℕ`); Python `//` is `Int.fdiv`
  and Python `%` is `Int.emod` — for the positive divisors that occur on the
  claims' input domain these agree with Python's floored conventions.
* Every value produced by a floating point expression
  `radius * math.cos(angle)` / `radius * math.sin(angle)` is abstracted as a
  parameter of type `Flt` (an exact integer fraction: every IEEE double is an
  exact rational), one parameter family per textual occurrence of such an
  expression in the source; the spiral loop's float `radius = i * radius_step`
  is abstracted the same way (`Offs.spiralRad`), since float sums and products
  such as `0.3 + 0.35` are not the exact text-level rationals.  Any concrete
  run of the Python code is an instance of the embedding at the corresponding
  float families.
  Python's `int()` applied to a float is truncation toward zero, embedded as
  `Flt.trunc` (integer `tdiv` of numerator by denominator).
* `list(set(dots))` is embedded as `List.dedup`.  The order Python produces
  there is unspecified hash order, so no claim depends on the order of a
  deduplicated dot list; the one conditional append that this affects
  (`if curve_point not in dots` in the flower generator) is dropped, since it
  only changes which duplicate survives inside `list(set(...))`.
* The comparisons `1 <= math.sqrt(d2) <= 2.5` and
  `math.sqrt(d2) <= step * 1.5` on an integer squared distance `d2` are
  embedded by the exactly equivalent integer tests `1 ≤ d2 ∧ 4*d2 ≤ 25` and
  `4*d2 ≤ 9*step^2` (square roots of small integers are far enough from the
  thresholds that the float evaluation agrees with the exact one).
* Python list indexing that can raise `IndexError` (the star generator) is
  embedded with `Option`: `none` is an escaped exception.
-/

/-- A lattice point `(x, y)` of the kolam grid. -/
abbrev Dot := ℤ × ℤ

/-- A connection: an ordered pair of endpoints as the Python code stores it. -/
abbrev Conn := Dot × Dot

/-- An exact rational value `num / den` of a Python floating point expression.
Statements that use the rational semantics carry `0 < den` (or `Flt.AbsLe`)
as a hypothesis. -/
structure Flt where
  num : ℤ
  den : ℤ
deriving DecidableEq

/-- Python's `int()` on a float value: truncation toward zero. -/
def Flt.trunc (f : Flt) : ℤ := f.num.tdiv f.den

/-- The float value `f` is well formed and satisfies `|f| ≤ r` as a rational
number (cleared of denominators). -/
def Flt.AbsLe (f : Flt) (r : ℤ) : Prop := 0 < f.den ∧ |f.num| ≤ r * f.den

instance (f : Flt) (r : ℤ) : Decidable (f.AbsLe r) := by
  unfold Flt.AbsLe; infer_instance

/-- The grid centre `center = grid_size // 2`. -/
def ctr (g : ℕ) : ℤ := ((g / 2 : ℕ) : ℤ)

/-- The bounds guard `0 <= x < grid_size and 0 <= y < grid_size`. -/
def inB (g : ℕ) (d : Dot) : Prop :=
  0 ≤ d.1 ∧ d.1 < (g : ℤ) ∧ 0 ≤ d.2 ∧ d.2 < (g : ℤ)

instance (g : ℕ) (d : Dot) : Decidable (inB g d) := by
  unfold inB; infer_instance

/-- Shared discretization idiom of the radial generators:
`x = center + int(radius*cos(angle))`, `y = center + int(radius*sin(angle))`,
kept only when the bounds guard passes; `none` is the silent discard. -/
def polarCandidate (g : ℕ) (center : ℤ) (off : Flt × Flt) : Option Dot :=
  let x := center + off.1.trunc
  let y := center + off.2.trunc
  if inB g (x, y) then some (x, y) else none

/-- Monadic map over `Option`: the result is `none` as soon as `f` fails on
one element, modelling a Python loop that can raise. -/
def listMapM {α β : Type} (f : α → Option β) : List α → Option (List β)
  | [] => some []
  | a :: rest => do
    let b ← f a
    let bs ← listMapM f rest
    pure (b :: bs)

/-- Squared euclidean distance between two dots (`dist**2` is this integer). -/
def sqDist (d e : Dot) : ℤ := (d.1 - e.1) ^ 2 + (d.2 - e.2) ^ 2

/-- All pairs `(dots[i], dots[j])`, `i < j`, that satisfy `pred`, in the order
of the Python double loop `for i, dot1 in enumerate(dots): for dot2 in
dots[i+1:]`. -/
def allPairs (pred : Dot → Dot → Bool) : List Dot → List Conn
  | [] => []
  | d :: rest =>
    (rest.filterMap fun e => if pred d e then some ((d, e) : Conn) else none)
      ++ allPairs pred rest

/-- The abstract float inputs of one synthesis call: the exact values of the
`radius*cos(...)` / `radius*sin(...)` float expression pairs, one family per
textual occurrence in the source, plus (`spiralRad`) the exact value of the
spiral loop's float `radius = i * radius_step` at step `i` (every IEEE double
is an exact rational, so each family is a `Flt`-valued function). -/
structure Offs where
  flowerPetal : ℕ → Flt × Flt
  flowerMid : ℕ → Flt × Flt
  flowerCurve : ℕ → Flt × Flt
  flowerRing : ℕ → Flt × Flt
  lotusInner : ℕ → Flt × Flt
  lotusOuter : ℕ → Flt × Flt
  starOuter : ℕ → Flt × Flt
  starInner : ℕ → Flt × Flt
  spiralStep : ℕ → Flt × Flt
  spiralRad : ℕ → Flt
  mandalaRing : ℕ → ℕ → Flt × Flt

/-- The zero float value `0.0`. -/
def fltZero : Flt := ⟨0, 1⟩

/-- Offset families that are identically zero (used to instantiate theorems
with hypotheses at a concrete input). -/
def zeroOffs : Offs :=
  ⟨fun _ => (fltZero, fltZero), fun _ => (fltZero, fltZero),
   fun _ => (fltZero, fltZero), fun _ => (fltZero, fltZero),
   fun _ => (fltZero, fltZero), fun _ => (fltZero, fltZero),
   fun _ => (fltZero, fltZero), fun _ => (fltZero, fltZero),
   fun _ => (fltZero, fltZero), fun _ => fltZero,
   fun _ _ => (fltZero, fltZero)⟩

/-- The fields of the prompt-analysis / guidance dictionary that the
generators read through `analysis.get(...)`; `none` models a missing key. -/
structure Analysis where
  pattern_type : Option String
  symmetry_type : Option String
  complexity : Option ℤ
  count : Option ℤ
  suggested_count : Option ℤ
  cultural_context : Option String
deriving DecidableEq

/-- The `KolamPattern` dataclass of `src/ai_kolam_generator.py`. -/
structure KolamPattern where
  dots : List Dot
  connections : List Conn
  pattern_type : String
  symmetry : String
  complexity : ℤ
  description : String
  cultural_significance : String
  grid_size : ℕ
deriving DecidableEq

/-- Petal radius `min(center - 1, max(2, 1 + complexity // 2))` of the flower
generator. -/
def flowerPetalRadius (g : ℕ) (cx : ℤ) : ℤ :=
  min (ctr g - 1) (max 2 (1 + cx.fdiv 2))

/-- The `petal_points` list of the flower generator: the retained petal
candidates, in loop order. -/
def flowerPetalPts (g : ℕ) (n : ℕ) (offP : ℕ → Flt × Flt) : List Dot :=
  (List.range n).filterMap fun i => polarCandidate g (ctr g) (offP i)

/-- Dots appended by iteration `i` of the petal loop of the flower generator:
the petal point, then (for `complexity > 5`) the intermediate point. -/
def flowerLoopDots (g : ℕ) (cx : ℤ) (offP offM : ℕ → Flt × Flt) (i : ℕ) :
    List Dot :=
  match polarCandidate g (ctr g) (offP i) with
  | none => []
  | some p =>
    p :: (if 5 < cx then (polarCandidate g (ctr g) (offM i)).toList else [])

/-- Connections appended by iteration `i` of the petal loop of the flower
generator: centre→petal, then (for `complexity > 5`, intermediate point in
bounds) centre→mid and mid→petal. -/
def flowerLoopConns (g : ℕ) (cx : ℤ) (offP offM : ℕ → Flt × Flt) (i : ℕ) :
    List Conn :=
  match polarCandidate g (ctr g) (offP i) with
  | none => []
  | some p =>
    ((ctr g, ctr g), p) ::
      (if 5 < cx then
        match polarCandidate g (ctr g) (offM i) with
        | some m => [((ctr g, ctr g), m), (m, p)]
        | none => []
      else [])

/-- Dots appended by the petal-to-petal section of the flower generator
(`complexity > 3 and len(petal_points) > 2`; curve points only for
`complexity > 6`). -/
def flowerCurveDots (g : ℕ) (cx : ℤ) (pts : List Dot) (offC : ℕ → Flt × Flt) :
    List Dot :=
  if 3 < cx ∧ 2 < pts.length then
    (List.range pts.length).flatMap fun i =>
      if 6 < cx then (polarCandidate g (ctr g) (offC i)).toList else []
  else []

/-- Connections appended by the petal-to-petal section of the flower
generator: `petal[i]`→curve and curve→`petal[(i+1) % len]` whenever the curve
point is in bounds. -/
def flowerCurveConns (g : ℕ) (cx : ℤ) (pts : List Dot) (offC : ℕ → Flt × Flt) :
    List Conn :=
  if 3 < cx ∧ 2 < pts.length then
    (List.range pts.length).flatMap fun i =>
      if 6 < cx then
        match polarCandidate g (ctr g) (offC i) with
        | some cp =>
          [(pts.getD i (ctr g, ctr g), cp),
           (cp, pts.getD ((i + 1) % pts.length) (ctr g, ctr g))]
        | none => []
      else []
  else []

/-- The decorative ring points of the flower generator (`complexity > 7`):
`petal_count * 2` candidates, retained when in bounds. -/
def flowerRingPts (g : ℕ) (n : ℕ) (offR : ℕ → Flt × Flt) : List Dot :=
  (List.range (n * 2)).filterMap fun i => polarCandidate g (ctr g) (offR i)

/-- Ring-cycle connections `ring_points[i] → ring_points[(i+1) % len]`. -/
def ringCycleConns (rp : List Dot) : List Conn :=
  (List.range rp.length).map fun i =>
    (rp.getD i (0, 0), rp.getD ((i + 1) % rp.length) (0, 0))

/-- The full (pre-deduplication) dot list of the flower generator. -/
def flowerDots (g : ℕ) (cx : ℤ) (n : ℕ) (o : Offs) : List Dot :=
  (ctr g, ctr g) ::
    ((List.range n).flatMap (flowerLoopDots g cx o.flowerPetal o.flowerMid)
      ++ flowerCurveDots g cx (flowerPetalPts g n o.flowerPetal) o.flowerCurve
      ++ (if 7 < cx then flowerRingPts g n o.flowerRing else []))

/-- The connection list of the flower generator. -/
def flowerConns (g : ℕ) (cx : ℤ) (n : ℕ) (o : Offs) : List Conn :=
  (List.range n).flatMap (flowerLoopConns g cx o.flowerPetal o.flowerMid)
    ++ flowerCurveConns g cx (flowerPetalPts g n o.flowerPetal) o.flowerCurve
    ++ (if 7 < cx then ringCycleConns (flowerRingPts g n o.flowerRing)
        else [])

/-- Embedding of `_create_flower_template` (src/ai_kolam_generator.py lines
251-332). -/
def flowerTemplate (a : Analysis) (g : ℕ) (o : Offs) : KolamPattern :=
  let petalCount : ℤ := a.suggested_count.getD (a.count.getD 8)
  let cx : ℤ := a.complexity.getD 5
  { dots := (flowerDots g cx petalCount.toNat o).dedup
    connections := flowerConns g cx petalCount.toNat o
    pattern_type := "flower"
    symmetry := a.symmetry_type.getD "rotational"
    complexity := cx
    description := s!"Enhanced flower pattern with {petalCount} petals"
    cultural_significance :=
      a.cultural_context.getD
        "Represents prosperity and natural beauty in Tamil culture"
    grid_size := g }

/-- Embedding of `_create_traditional_template` (lines 609-615): overwrite
`analysis['pattern_type']` with `'flower'`, then delegate to the flower
generator. -/
def traditionalTemplate (a : Analysis) (g : ℕ) (o : Offs) : KolamPattern :=
  flowerTemplate { a with pattern_type := some "flower" } g o

/-- Inner petal radius `max(1, center - 2)` of the lotus generator. -/
def lotusInnerRadius (g : ℕ) : ℤ := max 1 (ctr g - 2)

/-- The retained inner petal dots of the lotus generator. -/
def lotusInnerDots (g : ℕ) (n : ℕ) (o : Offs) : List Dot :=
  (List.range n).filterMap fun i => polarCandidate g (ctr g) (o.lotusInner i)

/-- The outer-petal loop of the lotus generator: per retained outer dot, the
dot together with its connection from the (unguarded, re-evaluated) inner
candidate of the same index. -/
def lotusOuterPart (g : ℕ) (cx : ℤ) (n : ℕ) (o : Offs) : List (Dot × Conn) :=
  if 4 < cx then
    (List.range n).filterMap fun i =>
      (polarCandidate g (ctr g) (o.lotusOuter i)).map fun p =>
        (p, ((ctr g + (o.lotusInner i).1.trunc,
              ctr g + (o.lotusInner i).2.trunc), p))
  else []

/-- The full (pre-deduplication) dot list of the lotus generator. -/
def lotusDots (g : ℕ) (cx : ℤ) (n : ℕ) (o : Offs) : List Dot :=
  ((ctr g, ctr g) :: lotusInnerDots g n o) ++ (lotusOuterPart g cx n o).map Prod.fst

/-- The connection list of the lotus generator. -/
def lotusConns (g : ℕ) (cx : ℤ) (n : ℕ) (o : Offs) : List Conn :=
  ((lotusInnerDots g n o).map fun p => ((ctr g, ctr g), p))
    ++ (lotusOuterPart g cx n o).map Prod.snd

/-- Embedding of `_create_lotus_template` (lines 334-377).  For
`complexity > 4` the outer loop appends, per retained outer dot, a connection
whose first endpoint re-evaluates the inner candidate of the same index
(`nearest_inner_angle` is the same float expression as the inner loop's
angle), without a bounds guard. -/
def lotusTemplate (a : Analysis) (g : ℕ) (o : Offs) : KolamPattern :=
  let cx : ℤ := a.complexity.getD 5
  let petalCount : ℤ := a.count.getD 8
  { dots := (lotusDots g cx petalCount.toNat o).dedup
    connections := lotusConns g cx petalCount.toNat o
    pattern_type := "lotus"
    symmetry := "rotational"
    complexity := cx
    description := s!"Lotus pattern with {petalCount} petals"
    cultural_significance :=
      "Sacred flower representing purity and enlightenment"
    grid_size := g }

/-- Outer radius `center - 1` of the star generator. -/
def starOuterRadius (g : ℕ) : ℤ := ctr g - 1

/-- Inner radius `max(1, outer_radius // 2)` of the star generator. -/
def starInnerRadius (g : ℕ) : ℤ := max 1 ((ctr g - 1).fdiv 2)

/-- The retained outer points of the star generator. -/
def starOuterPts (g : ℕ) (n : ℕ) (o : Offs) : List Dot :=
  (List.range n).filterMap fun i => polarCandidate g (ctr g) (o.starOuter i)

/-- The retained inner points of the star generator. -/
def starInnerPts (g : ℕ) (n : ℕ) (o : Offs) : List Dot :=
  (List.range n).filterMap fun i => polarCandidate g (ctr g) (o.starInner i)

/-- The indexed connection pass of the star generator; `none` models the
`IndexError` raised when a list is shorter than `points`. -/
def starConnParts (g : ℕ) (cx : ℤ) (n : ℕ) (o : Offs) :
    Option (List (List Conn)) :=
  let c := ctr g
  let outerPts := starOuterPts g n o
  let innerPts := starInnerPts g n o
  listMapM (fun i => do
    let op ← outerPts.get? i
    let pv ← innerPts.get? (if i = 0 then innerPts.length - 1 else i - 1)
    let cv ← innerPts.get? i
    pure ([(pv, op), (op, cv)] ++ if 6 < cx then [((c, c), op)] else []))
    (List.range n)

/-- Embedding of `_create_star_template` (lines 379-433).  The Python code
indexes `outer_points[i]`, `inner_points[i-1]` and `inner_points[i]` for
every `i in range(points)`; when candidates were discarded those lists are
shorter than `points` and the indexing raises `IndexError`, modelled by
`none`.  The Python index `-1` (case `i = 0`) addresses the last element. -/
def starTemplate (a : Analysis) (g : ℕ) (o : Offs) : Option KolamPattern :=
  let c := ctr g
  let pointsZ : ℤ := a.count.getD 6
  let cx : ℤ := a.complexity.getD 5
  let n := pointsZ.toNat
  let dots := ((c, c) :: starOuterPts g n o) ++ starInnerPts g n o
  (starConnParts g cx n o).map fun ps =>
    { dots := dots.dedup
      connections := ps.flatten
      pattern_type := "star"
      symmetry := "rotational"
      complexity := cx
      description := s!"Star pattern with {pointsZ} points"
      cultural_significance := "Represents guidance and celestial harmony"
      grid_size := g }

/-- The divisor `(10 - complexity)` used by the diamond generator's ring
selection test `radius % (10 - complexity) == 0`. -/
def diamondModulus (cx : ℤ) : ℤ := 10 - cx

/-- Dots contributed by one selected radius of the diamond generator: top,
bottom, left, right (each under its own guard), then for `complexity > 6`
the four diagonal offsets `radius // 2` under the full bounds guard. -/
def diamondRadiusDots (g : ℕ) (cx : ℤ) (r : ℕ) : List Dot :=
  let c := ctr g
  let rz : ℤ := (r : ℤ)
  ((if 0 ≤ c - rz then [((c, c - rz) : Dot)] else []) ++
   (if c + rz < (g : ℤ) then [((c, c + rz) : Dot)] else []) ++
   (if 0 ≤ c - rz then [((c - rz, c) : Dot)] else []) ++
   (if c + rz < (g : ℤ) then [((c + rz, c) : Dot)] else [])) ++
  (if 6 < cx then
    (let dg : ℤ := ((r / 2 : ℕ) : ℤ)
     ([(dg, dg), (-dg, dg), (dg, -dg), (-dg, -dg)] : List (ℤ × ℤ)).filterMap
       fun off =>
         let p : Dot := (c + off.1, c + off.2)
         if inB g p then some p else none)
  else [])

/-- The connection predicate `1 <= dist <= 2.5` of the diamond generator on
the integer squared distance. -/
def diamondNear (d e : Dot) : Bool :=
  decide (1 ≤ sqDist d e) && decide (4 * sqDist d e ≤ 25)

/-- The selected radii `1 .. max_radius` of the diamond generator. -/
def diamondRadii (g : ℕ) (cx : ℤ) : List ℕ :=
  (List.range' 1 (ctr g - 1).toNat).filter fun (r : ℕ) =>
    ((r : ℤ) % diamondModulus cx == 0) || ((r : ℤ) == ctr g - 1)

/-- The deduplicated dot list of the diamond generator. -/
def diamondDots (g : ℕ) (cx : ℤ) : List Dot :=
  ((diamondRadii g cx).flatMap (diamondRadiusDots g cx)).dedup

/-- Embedding of `_create_diamond_template` (lines 435-487).  The radii
`1 .. max_radius` passing `radius % (10 - complexity) == 0 or radius ==
max_radius` contribute dots; `dots = list(set(dots))` happens before the
all-pairs connection pass. -/
def diamondTemplate (a : Analysis) (g : ℕ) : KolamPattern :=
  let cx : ℤ := a.complexity.getD 5
  { dots := diamondDots g cx
    connections := allPairs diamondNear (diamondDots g cx)
    pattern_type := "diamond"
    symmetry := "bilateral"
    complexity := cx
    description := "Diamond geometric pattern"
    cultural_significance := "Represents stability and balance"
    grid_size := g }

/-- The spiral loop's break test `radius >= center - 1`, where `r` is the
exact rational value of the float `radius = i * radius_step` at the current
step (supplied, like the trig offsets, as an abstract float input with a
positive denominator — the float sum `0.3 + complexity/20` and its products
are not the exact rationals `(6+complexity)/20 * i`, e.g. `0.3 + 0.35` is one
ulp below `0.65`); the comparison is cleared of the positive denominator. -/
def spiralBreakAt (g : ℕ) (r : Flt) : Prop :=
  (ctr g - 1) * r.den ≤ r.num

instance (g : ℕ) (r : Flt) : Decidable (spiralBreakAt g r) := by
  unfold spiralBreakAt; infer_instance

/-- One run of the spiral loop (lines 502-519): `fuel` is the remaining
budget of `range(int(20 + complexity * 2))`, `i` the current index, `rad i`
the float radius at step `i`, `prev` the previously retained dot.  Returns
the retained dots in order and the connections chained between consecutive
retained dots. -/
def spiralGo (g : ℕ) (rad : ℕ → Flt) (off : ℕ → Flt × Flt) :
    ℕ → ℕ → Option Dot → List Dot × List Conn
  | 0, _, _ => ([], [])
  | fuel + 1, i, prev =>
    if spiralBreakAt g (rad i) then ([], [])
    else
      match polarCandidate g (ctr g) (off i) with
      | some d =>
        let rest := spiralGo g rad off fuel (i + 1) (some d)
        (d :: rest.1,
          (match prev with | some p => [((p, d) : Conn)] | none => []) ++ rest.2)
      | none => spiralGo g rad off fuel (i + 1) prev

/-- Embedding of `_create_spiral_template` (lines 489-530). -/
def spiralTemplate (a : Analysis) (g : ℕ) (o : Offs) : KolamPattern :=
  let cx : ℤ := a.complexity.getD 5
  { dots :=
      (spiralGo g o.spiralRad o.spiralStep (20 + 2 * cx).toNat 0 none).1.dedup
    connections :=
      (spiralGo g o.spiralRad o.spiralStep (20 + 2 * cx).toNat 0 none).2
    pattern_type := "spiral"
    symmetry := "rotational"
    complexity := cx
    description := "Spiral pattern representing cosmic energy"
    cultural_significance := "Represents the cycle of life and cosmic energy"
    grid_size := g }

/-- The ring-selection step `max(1, (10 - complexity) // 2)` of the mandala
generator. -/
def mandalaRingStep (cx : ℤ) : ℤ := max 1 ((10 - cx).fdiv 2)

/-- The retained dots of mandala ring `ring` (`segments * ring` candidates,
kept when in bounds). -/
def mandalaRingPts (g : ℕ) (o : Offs) (seg : ℤ) (ring : ℕ) : List Dot :=
  (List.range (seg * (ring : ℤ)).toNat).filterMap fun i =>
    polarCandidate g (ctr g) (o.mandalaRing ring i)

/-- Connections of one mandala ring: each retained dot to its cyclic
successor, plus (for ring 1 only) centre spokes. -/
def mandalaRingConns (c : ℤ) (ring : ℕ) (rd : List Dot) : List Conn :=
  (List.range rd.length).flatMap fun i =>
    ((rd.getD i (c, c), rd.getD ((i + 1) % rd.length) (c, c)) : Conn) ::
      (if ring = 1 then [(((c, c) : Dot), rd.getD i (c, c))] else [])

/-- The selected rings `1 .. center-1` of the mandala generator. -/
def mandalaRings (g : ℕ) (cx : ℤ) : List ℕ :=
  (List.range' 1 (g / 2 - 1)).filter fun (r : ℕ) =>
    (r : ℤ) % mandalaRingStep cx == 0

/-- The full (pre-deduplication) dot list of the mandala generator. -/
def mandalaDots (g : ℕ) (cx : ℤ) (seg : ℤ) (o : Offs) : List Dot :=
  (ctr g, ctr g) :: (mandalaRings g cx).flatMap (mandalaRingPts g o seg)

/-- The connection list of the mandala generator. -/
def mandalaConns (g : ℕ) (cx : ℤ) (seg : ℤ) (o : Offs) : List Conn :=
  (mandalaRings g cx).flatMap fun r =>
    mandalaRingConns (ctr g) r (mandalaRingPts g o seg r)

/-- Embedding of `_create_mandala_template` (lines 532-574). -/
def mandalaTemplate (a : Analysis) (g : ℕ) (o : Offs) : KolamPattern :=
  let cx : ℤ := a.complexity.getD 5
  let seg : ℤ := a.count.getD 8
  { dots := (mandalaDots g cx seg o).dedup
    connections := mandalaConns g cx seg o
    pattern_type := "mandala"
    symmetry := "rotational"
    complexity := cx
    description := s!"Mandala pattern with {seg} segments"
    cultural_significance := "Represents wholeness and cosmic order"
    grid_size := g }

/-- The sampling step `max(1, (10 - complexity) // 3)` of the geometric
generator. -/
def geomStep (cx : ℤ) : ℤ := max 1 ((10 - cx).fdiv 3)

/-- `range(0, grid_size, step)` for a positive step. -/
def rangeStep (g s : ℕ) : List ℕ := (List.range ((g + s - 1) / s)).map (· * s)

/-- The dot grid of the geometric generator, including the (always true)
`if i < grid_size and j < grid_size` guard of the source. -/
def geometricDots (g s : ℕ) : List Dot :=
  (rangeStep g s).flatMap fun i =>
    (rangeStep g s).filterMap fun j =>
      if i < g ∧ j < g then some (((i : ℤ), (j : ℤ)) : Dot) else none

/-- The connection predicate `dist <= step * 1.5` of the geometric generator
on the integer squared distance. -/
def geomNear (s : ℕ) (d e : Dot) : Bool :=
  decide (4 * sqDist d e ≤ 9 * ((s : ℤ)) ^ 2)

/-- Embedding of `_create_geometric_template` (lines 576-607). -/
def geometricTemplate (a : Analysis) (g : ℕ) : KolamPattern :=
  let cx : ℤ := a.complexity.getD 5
  let s := (geomStep cx).toNat
  let dots := geometricDots g s
  { dots := dots
    connections := allPairs (geomNear s) dots
    pattern_type := "geometric"
    symmetry := a.symmetry_type.getD "bilateral"
    complexity := cx
    description := "Geometric grid pattern"
    cultural_significance := "Represents mathematical harmony"
    grid_size := g }

/-- Embedding of `_create_pattern_from_analysis` (lines 241-249): dictionary
dispatch over the eight template keys, with the geometric generator as the
fallback for any other `pattern_type`.  `none` models an exception escaping
the selected generator (only the star generator can raise). -/
def createPatternFromAnalysis (a : Analysis) (g : ℕ) (o : Offs) :
    Option KolamPattern :=
  match a.pattern_type.getD "geometric" with
  | "flower" => some (flowerTemplate a g o)
  | "lotus" => some (lotusTemplate a g o)
  | "star" => starTemplate a g o
  | "diamond" => some (diamondTemplate a g)
  | "spiral" => some (spiralTemplate a g o)
  | "mandala" => some (mandalaTemplate a g o)
  | "geometric" => some (geometricTemplate a g)
  | "traditional" => some (traditionalTemplate a g o)
  | _ => some (geometricTemplate a g)

/-- A Python value as it may occur in a raw AI-guidance dict. -/
inductive PyVal where
  | vint (n : ℤ)
  | vstr (s : String)
  | vlist (l : List PyVal)
  | vother

/-- A raw guidance record, possibly attacker/model supplied; `none` marks a
missing key. -/
structure Guidance where
  pattern_type : Option PyVal
  symmetry_type : Option PyVal
  complexity : Option PyVal
  suggested_count : Option PyVal
  key_elements : Option PyVal
  drawing_instructions : Option PyVal

/-- The `valid_patterns` list of `_validate_ai_guidance`. -/
def validPatterns : List String :=
  ["flower", "lotus", "star", "diamond", "spiral", "mandala", "geometric",
   "traditional"]

/-- The `valid_symmetries` list of `_validate_ai_guidance`. -/
def validSymmetries : List String :=
  ["rotational", "bilateral", "point", "radial"]

/-- `guidance.get(k) in xs` for a list of strings: only a present string
value can be a member (`None` and non-strings are not). -/
def optMemStr (v : Option PyVal) (xs : List String) : Bool :=
  match v with
  | some (.vstr s) => xs.contains s
  | _ => false

/-- `isinstance(v, int) and lo <= v <= hi`. -/
def isIntIn (v : PyVal) (lo hi : ℤ) : Bool :=
  match v with
  | .vint n => decide (lo ≤ n) && decide (n ≤ hi)
  | _ => false

/-- Embedding of `_validate_ai_guidance` (lines 147-177).  Note that the
`complexity` and `suggested_count` checks read `guidance.get(key, default)`
and only write the field back when the check fails: a missing key whose
default passes the check stays missing. -/
def validateAiGuidance (gd : Guidance) : Guidance :=
  let pt := if optMemStr gd.pattern_type validPatterns then gd.pattern_type
            else some (.vstr "flower")
  let sym := if optMemStr gd.symmetry_type validSymmetries then gd.symmetry_type
             else some (.vstr "rotational")
  let cx := if isIntIn (gd.complexity.getD (.vint 5)) 1 9 then gd.complexity
            else some (.vint 5)
  let ct := if isIntIn (gd.suggested_count.getD (.vint 8)) 3 16 then
              gd.suggested_count
            else some (.vint 8)
  let ke := match gd.key_elements with
    | some (.vlist l) => some (PyVal.vlist l)
    | _ => some (.vlist [.vstr "center", .vstr "symmetry", .vstr "balance"])
  let di := match gd.drawing_instructions with
    | some (.vlist l) => some (PyVal.vlist l)
    | _ => some (.vlist [.vstr "Start from center",
                         .vstr "Create symmetric elements",
                         .vstr "Connect with flowing lines"])
  { pattern_type := pt, symmetry_type := sym, complexity := cx,
    suggested_count := ct, key_elements := ke, drawing_instructions := di }

/-! Basic lemmas about the shared primitives. -/

theorem ctr_nonneg (g : ℕ) : 0 ≤ ctr g := by
  unfold ctr; positivity

theorem ctr_lt {g : ℕ} (h : 1 ≤ g) : ctr g < (g : ℤ) := by
  unfold ctr; omega

theorem two_ctr_le (g : ℕ) : 2 * ctr g ≤ (g : ℤ) := by
  unfold ctr; omega

theorem le_two_ctr_add_one (g : ℕ) : (g : ℤ) ≤ 2 * ctr g + 1 := by
  unfold ctr; omega

theorem ctr_inB {g : ℕ} (h : 1 ≤ g) : inB g (ctr g, ctr g) := by
  refine ⟨ctr_nonneg g, ctr_lt h, ctr_nonneg g, ctr_lt h⟩

theorem Flt.abs_trunc_le {f : Flt} {r : ℤ} (h : f.AbsLe r) : |f.trunc| ≤ r := by
  obtain ⟨hd, habs⟩ := h
  have hr : 0 ≤ r := by nlinarith [abs_nonneg f.num]
  have key : ∀ a : ℤ, 0 ≤ a → a ≤ r * f.den → a.tdiv f.den ≤ r := by
    intro a ha hle
    rw [Int.tdiv_eq_ediv ha hd.le]
    have h2 : a / f.den ≤ r * f.den / f.den := Int.ediv_le_ediv hd hle
    rwa [Int.mul_ediv_cancel r (by omega)] at h2
  rcases le_or_lt 0 f.num with ha | ha
  · have h0 : 0 ≤ f.num.tdiv f.den := by
      rw [Int.tdiv_eq_ediv ha hd.le]; exact Int.ediv_nonneg ha hd.le
    have := key f.num ha (by rwa [abs_of_nonneg ha] at habs)
    unfold Flt.trunc
    rw [abs_of_nonneg h0]; exact this
  · have hneg : f.trunc = -((-f.num).tdiv f.den) := by
      unfold Flt.trunc; rw [Int.neg_tdiv]; ring
    have h0 : 0 ≤ (-f.num).tdiv f.den := by
      rw [Int.tdiv_eq_ediv (by omega) hd.le]; exact Int.ediv_nonneg (by omega) hd.le
    have := key (-f.num) (by omega) (by rwa [abs_of_neg ha] at habs)
    rw [hneg, abs_neg, abs_of_nonneg h0]
    exact this

theorem polarCandidate_some_eq {g : ℕ} {c : ℤ} {off : Flt × Flt} {d : Dot}
    (h : polarCandidate g c off = some d) :
    d = (c + off.1.trunc, c + off.2.trunc) ∧ inB g d := by
  simp only [polarCandidate] at h
  split at h
  · cases h; exact ⟨rfl, by assumption⟩
  · cases h

theorem polarCandidate_some_inB {g : ℕ} {c : ℤ} {off : Flt × Flt} {d : Dot}
    (h : polarCandidate g c off = some d) : inB g d :=
  (polarCandidate_some_eq h).2

theorem polarCandidate_of_inB {g : ℕ} {c : ℤ} {off : Flt × Flt}
    (h : inB g (c + off.1.trunc, c + off.2.trunc)) :
    polarCandidate g c off = some (c + off.1.trunc, c + off.2.trunc) := by
  simp only [polarCandidate]
  rw [if_pos h]

theorem polarCandidate_none_iff {g : ℕ} {c : ℤ} {off : Flt × Flt} :
    polarCandidate g c off = none ↔
      ¬ inB g (c + off.1.trunc, c + off.2.trunc) := by
  simp only [polarCandidate]
  split
  · simp_all
  · simp_all

/-- Bounded offsets centred inside the grid give an in-bounds candidate. -/
theorem polarCandidate_of_absLe {g : ℕ} {c r : ℤ} {off : Flt × Flt}
    (h1 : off.1.AbsLe r) (h2 : off.2.AbsLe r)
    (hlo : 0 ≤ c - r) (hhi : c + r < (g : ℤ)) :
    polarCandidate g c off = some (c + off.1.trunc, c + off.2.trunc) := by
  have b1 := abs_le.mp (Flt.abs_trunc_le h1)
  have b2 := abs_le.mp (Flt.abs_trunc_le h2)
  exact polarCandidate_of_inB ⟨by omega, by omega, by omega, by omega⟩

theorem getD_mem {α : Type} {l : List α} {n : ℕ} (d : α) (h : n < l.length) :
    l.getD n d ∈ l := by
  rw [List.getD_eq_getElem l d h]
  exact List.getElem_mem h

theorem mem_allPairs {pred : Dot → Dot → Bool} :
    ∀ {l : List Dot} {pr : Conn}, pr ∈ allPairs pred l → pr.1 ∈ l ∧ pr.2 ∈ l := by
  intro l
  induction l with
  | nil => intro pr h; cases h
  | cons d rest ih =>
    intro pr h
    rw [allPairs] at h
    rcases List.mem_append.mp h with h1 | h2
    · rcases List.mem_filterMap.mp h1 with ⟨e, he, hfe⟩
      split at hfe
      · cases hfe; exact ⟨List.mem_cons_self _ _, List.mem_cons_of_mem _ he⟩
      · cases hfe
    · obtain ⟨ha, hb⟩ := ih h2
      exact ⟨List.mem_cons_of_mem _ ha, List.mem_cons_of_mem _ hb⟩

theorem listMapM_isSome {α β : Type} {f : α → Option β} :
    ∀ {l : List α}, (∀ a ∈ l, (f a).isSome) → (listMapM f l).isSome := by
  intro l
  induction l with
  | nil => intro; rfl
  | cons a rest ih =>
    intro h
    have ha := h a (List.mem_cons_self _ _)
    obtain ⟨b, hb⟩ := Option.isSome_iff_exists.mp ha
    have hr := ih fun x hx => h x (List.mem_cons_of_mem _ hx)
    obtain ⟨bs, hbs⟩ := Option.isSome_iff_exists.mp hr
    simp [listMapM, hb, hbs]

theorem mem_of_listMapM_some {α β : Type} {f : α → Option β} :
    ∀ {l : List α} {res : List β}, listMapM f l = some res →
      ∀ b ∈ res, ∃ a ∈ l, f a = some b := by
  intro l
  induction l with
  | nil =>
    intro res h b hb
    simp only [listMapM, Option.some.injEq] at h
    subst h; cases hb
  | cons a rest ih =>
    intro res h b hb
    rw [listMapM] at h
    cases hfa : f a with
    | none => rw [hfa] at h; cases h
    | some b0 =>
      rw [hfa] at h
      cases hrest : listMapM f rest with
      | none => rw [hrest] at h; cases h
      | some bs =>
        rw [hrest] at h
        simp only [Option.bind_eq_bind, Option.some_bind, Option.pure_def,
          Option.some.injEq] at h
        subst h
        rcases List.mem_cons.mp hb with rfl | hmem
        · exact ⟨a, List.mem_cons_self _ _, hfa⟩
        · obtain ⟨x, hx, hfx⟩ := ih hrest b hmem
          exact ⟨x, List.mem_cons_of_mem _ hx, hfx⟩

/-! Flower generator lemmas. -/

theorem flowerTemplate_dots (a : Analysis) (g : ℕ) (o : Offs) :
    (flowerTemplate a g o).dots =
      (flowerDots g (a.complexity.getD 5)
        (a.suggested_count.getD (a.count.getD 8)).toNat o).dedup := rfl

theorem flowerTemplate_conns (a : Analysis) (g : ℕ) (o : Offs) :
    (flowerTemplate a g o).connections =
      flowerConns g (a.complexity.getD 5)
        (a.suggested_count.getD (a.count.getD 8)).toNat o := rfl

theorem mem_flowerDots_iff {g : ℕ} {cx : ℤ} {n : ℕ} {o : Offs} {d : Dot} :
    d ∈ flowerDots g cx n o ↔ d = (ctr g, ctr g)
      ∨ d ∈ (List.range n).flatMap (flowerLoopDots g cx o.flowerPetal o.flowerMid)
      ∨ d ∈ flowerCurveDots g cx (flowerPetalPts g n o.flowerPetal) o.flowerCurve
      ∨ d ∈ (if 7 < cx then flowerRingPts g n o.flowerRing else []) := by
  unfold flowerDots
  simp only [List.mem_cons, List.mem_append]
  tauto

theorem mem_flowerLoopDots_inB {g : ℕ} {cx : ℤ} {oP oM : ℕ → Flt × Flt} {i : ℕ}
    {d : Dot} (h : d ∈ flowerLoopDots g cx oP oM i) : inB g d := by
  unfold flowerLoopDots at h
  cases hp : polarCandidate g (ctr g) (oP i) with
  | none => rw [hp] at h; cases h
  | some p =>
    rw [hp] at h
    rcases List.mem_cons.mp h with rfl | h2
    · exact polarCandidate_some_inB hp
    · split at h2
      · exact polarCandidate_some_inB (Option.mem_def.mp (Option.mem_toList.mp h2))
      · cases h2

theorem mem_flowerCurveDots_inB {g : ℕ} {cx : ℤ} {pts : List Dot}
    {oC : ℕ → Flt × Flt} {d : Dot} (h : d ∈ flowerCurveDots g cx pts oC) :
    inB g d := by
  unfold flowerCurveDots at h
  split at h
  · obtain ⟨i, _, hi⟩ := List.mem_flatMap.mp h
    split at hi
    · exact polarCandidate_some_inB (Option.mem_def.mp (Option.mem_toList.mp hi))
    · cases hi
  · cases h

theorem mem_flowerRingPts_inB {g : ℕ} {n : ℕ} {oR : ℕ → Flt × Flt} {d : Dot}
    (h : d ∈ flowerRingPts g n oR) : inB g d := by
  obtain ⟨i, _, hi⟩ := List.mem_filterMap.mp h
  exact polarCandidate_some_inB hi

theorem flowerDots_inB {g : ℕ} {cx : ℤ} {n : ℕ} {o : Offs} (hg : 1 ≤ g) :
    ∀ d ∈ flowerDots g cx n o, inB g d := by
  intro d hd
  rcases mem_flowerDots_iff.mp hd with rfl | hd | hd | hd
  · exact ctr_inB hg
  · obtain ⟨i, _, hi⟩ := List.mem_flatMap.mp hd
    exact mem_flowerLoopDots_inB hi
  · exact mem_flowerCurveDots_inB hd
  · split at hd
    · exact mem_flowerRingPts_inB hd
    · cases hd

theorem flowerPetalPts_subset {g : ℕ} {cx : ℤ} {n : ℕ} {oP oM : ℕ → Flt × Flt} :
    ∀ d ∈ flowerPetalPts g n oP,
      d ∈ (List.range n).flatMap (flowerLoopDots g cx oP oM) := by
  intro d hd
  obtain ⟨i, hi, hp⟩ := List.mem_filterMap.mp hd
  refine List.mem_flatMap.mpr ⟨i, hi, ?_⟩
  unfold flowerLoopDots
  rw [hp]
  exact List.mem_cons_self _ _

theorem flowerConns_closed {g : ℕ} {cx : ℤ} {n : ℕ} {o : Offs} :
    ∀ pr ∈ flowerConns g cx n o,
      pr.1 ∈ flowerDots g cx n o ∧ pr.2 ∈ flowerDots g cx n o := by
  intro pr hpr
  have hC : (ctr g, ctr g) ∈ flowerDots g cx n o :=
    mem_flowerDots_iff.mpr (Or.inl rfl)
  have hLoop : ∀ i ∈ List.range n,
      ∀ d ∈ flowerLoopDots g cx o.flowerPetal o.flowerMid i,
        d ∈ flowerDots g cx n o := fun i hi d hd =>
    mem_flowerDots_iff.mpr (Or.inr (Or.inl (List.mem_flatMap.mpr ⟨i, hi, hd⟩)))
  have hPts : ∀ d ∈ flowerPetalPts g n o.flowerPetal, d ∈ flowerDots g cx n o :=
    fun d hd => mem_flowerDots_iff.mpr
      (Or.inr (Or.inl (flowerPetalPts_subset d hd)))
  unfold flowerConns at hpr
  simp only [List.mem_append] at hpr
  rcases hpr with (hpr | hpr) | hpr
  · -- petal loop connections
    obtain ⟨i, hi, hconn⟩ := List.mem_flatMap.mp hpr
    unfold flowerLoopConns at hconn
    cases hp : polarCandidate g (ctr g) (o.flowerPetal i) with
    | none => rw [hp] at hconn; cases hconn
    | some p =>
      rw [hp] at hconn
      have hpD : p ∈ flowerDots g cx n o := by
        refine hLoop i hi p ?_
        unfold flowerLoopDots
        rw [hp]
        exact List.mem_cons_self _ _
      rcases List.mem_cons.mp hconn with rfl | h2
      · exact ⟨hC, hpD⟩
      · split at h2
        · rename_i h5
          cases hm : polarCandidate g (ctr g) (o.flowerMid i) with
          | none => rw [hm] at h2; cases h2
          | some m =>
            rw [hm] at h2
            have hmD : m ∈ flowerDots g cx n o := by
              refine hLoop i hi m ?_
              unfold flowerLoopDots
              rw [hp, if_pos h5]
              exact List.mem_cons_of_mem _
                (Option.mem_toList.mpr (by rw [hm]; rfl))
            rcases List.mem_cons.mp h2 with rfl | h3
            · exact ⟨hC, hmD⟩
            · rcases List.mem_cons.mp h3 with rfl | h4
              · exact ⟨hmD, hpD⟩
              · cases h4
        · cases h2
  · -- petal-to-petal curve connections
    unfold flowerCurveConns at hpr
    split at hpr
    · rename_i h35
      obtain ⟨i, hi, h2⟩ := List.mem_flatMap.mp hpr
      split at h2
      · rename_i h6
        cases hcp : polarCandidate g (ctr g) (o.flowerCurve i) with
        | none => rw [hcp] at h2; cases h2
        | some cp =>
          rw [hcp] at h2
          have hcpD : cp ∈ flowerDots g cx n o := by
            refine mem_flowerDots_iff.mpr (Or.inr (Or.inr (Or.inl ?_)))
            unfold flowerCurveDots
            rw [if_pos h35]
            exact List.mem_flatMap.mpr ⟨i, hi, by
              rw [if_pos h6]
              exact Option.mem_toList.mpr (by rw [hcp]; rfl)⟩
          have hi' := List.mem_range.mp hi
          have hPtsD : ∀ j, j < (flowerPetalPts g n o.flowerPetal).length →
              (flowerPetalPts g n o.flowerPetal).getD j (ctr g, ctr g) ∈
                flowerDots g cx n o :=
            fun j hj => hPts _ (getD_mem _ hj)
          rcases List.mem_cons.mp h2 with rfl | h3
          · exact ⟨hPtsD i hi', hcpD⟩
          · rcases List.mem_cons.mp h3 with rfl | h4
            · exact ⟨hcpD, hPtsD _ (Nat.mod_lt _ (by omega))⟩
            · cases h4
      · cases h2
    · cases hpr
  · -- decorative ring connections
    split at hpr
    · rename_i h7
      unfold ringCycleConns at hpr
      obtain ⟨i, hi, heq⟩ := List.mem_map.mp hpr
      have hi' := List.mem_range.mp hi
      have hrpD : ∀ j, j < (flowerRingPts g n o.flowerRing).length →
          (flowerRingPts g n o.flowerRing).getD j (0, 0) ∈
            flowerDots g cx n o := by
        intro j hj
        refine mem_flowerDots_iff.mpr (Or.inr (Or.inr (Or.inr ?_)))
        rw [if_pos h7]
        exact getD_mem _ hj
      subst heq
      exact ⟨hrpD _ hi', hrpD _ (Nat.mod_lt _ (by omega))⟩
    · cases hpr

/-! Lotus generator lemmas. -/

theorem lotusTemplate_dots (a : Analysis) (g : ℕ) (o : Offs) :
    (lotusTemplate a g o).dots =
      (lotusDots g (a.complexity.getD 5) (a.count.getD 8).toNat o).dedup := rfl

theorem lotusTemplate_conns (a : Analysis) (g : ℕ) (o : Offs) :
    (lotusTemplate a g o).connections =
      lotusConns g (a.complexity.getD 5) (a.count.getD 8).toNat o := rfl

/-- Arithmetic fact: the inner lotus radius fits strictly inside the grid. -/
theorem lotusInnerRadius_fits {g : ℕ} (hg : 3 ≤ g) :
    0 ≤ ctr g - lotusInnerRadius g ∧ ctr g + lotusInnerRadius g < (g : ℤ) := by
  unfold lotusInnerRadius ctr
  omega

/-- Under the (float-true) bound `|offset| ≤ inner_radius`, the re-evaluated
inner candidate of the lotus generator is in bounds and hence retained. -/
theorem lotusInner_retained {g : ℕ} {o : Offs} {i : ℕ} (hg : 3 ≤ g)
    (h1 : (o.lotusInner i).1.AbsLe (lotusInnerRadius g))
    (h2 : (o.lotusInner i).2.AbsLe (lotusInnerRadius g)) :
    polarCandidate g (ctr g) (o.lotusInner i) =
      some (ctr g + (o.lotusInner i).1.trunc,
            ctr g + (o.lotusInner i).2.trunc) := by
  obtain ⟨hlo, hhi⟩ := lotusInnerRadius_fits hg
  exact polarCandidate_of_absLe h1 h2 hlo hhi

theorem mem_lotusDots_iff {g : ℕ} {cx : ℤ} {n : ℕ} {o : Offs} {d : Dot} :
    d ∈ lotusDots g cx n o ↔ d = (ctr g, ctr g)
      ∨ d ∈ lotusInnerDots g n o
      ∨ d ∈ (lotusOuterPart g cx n o).map Prod.fst := by
  unfold lotusDots
  simp only [List.mem_cons, List.mem_append]
  tauto

theorem lotusDots_inB {g : ℕ} {cx : ℤ} {n : ℕ} {o : Offs} (hg : 1 ≤ g) :
    ∀ d ∈ lotusDots g cx n o, inB g d := by
  intro d hd
  rcases mem_lotusDots_iff.mp hd with rfl | hd | hd
  · exact ctr_inB hg
  · obtain ⟨i, _, hi⟩ := List.mem_filterMap.mp hd
    exact polarCandidate_some_inB hi
  · obtain ⟨x, hx, hfst⟩ := List.mem_map.mp hd
    unfold lotusOuterPart at hx
    split at hx
    · obtain ⟨i, _, hi⟩ := List.mem_filterMap.mp hx
      obtain ⟨p, hp, hxp⟩ := Option.map_eq_some'.mp hi
      subst hxp
      subst hfst
      exact polarCandidate_some_inB hp
    · cases hx

theorem lotusConns_closed {g : ℕ} {cx : ℤ} {n : ℕ} {o : Offs} (hg : 3 ≤ g)
    (hIn : ∀ i, (o.lotusInner i).1.AbsLe (lotusInnerRadius g) ∧
                (o.lotusInner i).2.AbsLe (lotusInnerRadius g)) :
    ∀ pr ∈ lotusConns g cx n o,
      pr.1 ∈ lotusDots g cx n o ∧ pr.2 ∈ lotusDots g cx n o := by
  intro pr hpr
  have hC : (ctr g, ctr g) ∈ lotusDots g cx n o :=
    mem_lotusDots_iff.mpr (Or.inl rfl)
  unfold lotusConns at hpr
  rcases List.mem_append.mp hpr with hpr | hpr
  · obtain ⟨p, hp, heq⟩ := List.mem_map.mp hpr
    subst heq
    exact ⟨hC, mem_lotusDots_iff.mpr (Or.inr (Or.inl hp))⟩
  · obtain ⟨x, hx, hsnd⟩ := List.mem_map.mp hpr
    have hxmem := hx
    unfold lotusOuterPart at hx
    split at hx
    · obtain ⟨i, hirange, hi⟩ := List.mem_filterMap.mp hx
      obtain ⟨p, hp, hxp⟩ := Option.map_eq_some'.mp hi
      subst hxp
      subst hsnd
      constructor
      · -- the re-evaluated inner endpoint is a retained inner dot
        refine mem_lotusDots_iff.mpr (Or.inr (Or.inl ?_))
        refine List.mem_filterMap.mpr ⟨i, hirange, ?_⟩
        exact lotusInner_retained hg (hIn i).1 (hIn i).2
      · exact mem_lotusDots_iff.mpr (Or.inr (Or.inr
          (List.mem_map.mp hpr |>.elim fun x' hx' => by
            exact List.mem_map.mpr ⟨_, hxmem, rfl⟩)))
    · cases hx

/-! Star generator lemmas. -/

theorem starTemplate_some {a : Analysis} {g : ℕ} {o : Offs} {p : KolamPattern}
    (h : starTemplate a g o = some p) :
    ∃ ps, starConnParts g (a.complexity.getD 5) (a.count.getD 6).toNat o
            = some ps ∧
      p.dots = (((ctr g, ctr g) :: starOuterPts g (a.count.getD 6).toNat o)
                  ++ starInnerPts g (a.count.getD 6).toNat o).dedup ∧
      p.connections = ps.flatten := by
  unfold starTemplate at h
  obtain ⟨ps, hps, hp⟩ := Option.map_eq_some'.mp h
  exact ⟨ps, hps, by rw [← hp], by rw [← hp]⟩

theorem starDots_inB {g : ℕ} {n : ℕ} {o : Offs} (hg : 1 ≤ g) :
    ∀ d ∈ ((ctr g, ctr g) :: starOuterPts g n o) ++ starInnerPts g n o,
      inB g d := by
  intro d hd
  rcases List.mem_append.mp hd with hd | hd
  · rcases List.mem_cons.mp hd with rfl | hd
    · exact ctr_inB hg
    · obtain ⟨i, _, hi⟩ := List.mem_filterMap.mp hd
      exact polarCandidate_some_inB hi
  · obtain ⟨i, _, hi⟩ := List.mem_filterMap.mp hd
    exact polarCandidate_some_inB hi

theorem starConns_closed {g : ℕ} {cx : ℤ} {n : ℕ} {o : Offs} {ps : List (List Conn)}
    (h : starConnParts g cx n o = some ps) :
    ∀ pr ∈ ps.flatten,
      pr.1 ∈ ((ctr g, ctr g) :: starOuterPts g n o) ++ starInnerPts g n o ∧
      pr.2 ∈ ((ctr g, ctr g) :: starOuterPts g n o) ++ starInnerPts g n o := by
  intro pr hpr
  obtain ⟨cl, hcl, hprcl⟩ := List.mem_flatten.mp hpr
  obtain ⟨i, _, hfi⟩ := mem_of_listMapM_some h cl hcl
  simp only [Option.bind_eq_bind] at hfi
  cases hop : (starOuterPts g n o).get? i with
  | none => rw [hop] at hfi; cases hfi
  | some op =>
    rw [hop] at hfi
    simp only [Option.some_bind] at hfi
    cases hpv : (starInnerPts g n o).get?
        (if i = 0 then (starInnerPts g n o).length - 1 else i - 1) with
    | none => rw [hpv] at hfi; cases hfi
    | some pv =>
      rw [hpv] at hfi
      simp only [Option.some_bind] at hfi
      cases hcv : (starInnerPts g n o).get? i with
      | none => rw [hcv] at hfi; cases hfi
      | some cv =>
        rw [hcv] at hfi
        simp only [Option.some_bind, Option.pure_def, Option.some.injEq] at hfi
        subst hfi
        have hOp : op ∈ ((ctr g, ctr g) :: starOuterPts g n o)
            ++ starInnerPts g n o :=
          List.mem_append.mpr (Or.inl (List.mem_cons_of_mem _
            (List.get?_mem hop)))
        have hPv : pv ∈ ((ctr g, ctr g) :: starOuterPts g n o)
            ++ starInnerPts g n o :=
          List.mem_append.mpr (Or.inr (List.get?_mem hpv))
        have hCv : cv ∈ ((ctr g, ctr g) :: starOuterPts g n o)
            ++ starInnerPts g n o :=
          List.mem_append.mpr (Or.inr (List.get?_mem hcv))
        have hCd : ((ctr g, ctr g) : Dot) ∈
            ((ctr g, ctr g) :: starOuterPts g n o) ++ starInnerPts g n o :=
          List.mem_append.mpr (Or.inl (List.mem_cons_self _ _))
        rcases List.mem_append.mp hprcl with hm | hm
        · rcases List.mem_cons.mp hm with rfl | hm
          · exact ⟨hPv, hOp⟩
          · rcases List.mem_cons.mp hm with rfl | hm
            · exact ⟨hOp, hCv⟩
            · cases hm
        · split at hm
          · rcases List.mem_cons.mp hm with rfl | hm
            · exact ⟨hCd, hOp⟩
            · cases hm
          · cases hm

/-! Diamond generator lemmas. -/

theorem diamondTemplate_dots (a : Analysis) (g : ℕ) :
    (diamondTemplate a g).dots = diamondDots g (a.complexity.getD 5) := rfl

theorem diamondTemplate_conns (a : Analysis) (g : ℕ) :
    (diamondTemplate a g).connections =
      allPairs diamondNear (diamondDots g (a.complexity.getD 5)) := rfl

theorem mem_diamondRadiusDots_inB {g : ℕ} {cx : ℤ} {r : ℕ} {d : Dot}
    (hg : 1 ≤ g) (h : d ∈ diamondRadiusDots g cx r) : inB g d := by
  have hc0 := ctr_nonneg g
  have hcg := ctr_lt hg
  have hr0 : (0 : ℤ) ≤ (r : ℤ) := Int.ofNat_nonneg r
  unfold diamondRadiusDots at h
  rcases List.mem_append.mp h with h | h
  · rcases List.mem_append.mp h with h | h
    · rcases List.mem_append.mp h with h | h
      · rcases List.mem_append.mp h with h | h
        · split at h
          · rcases List.mem_singleton.mp h with rfl
            exact ⟨hc0, hcg, by omega, by omega⟩
          · cases h
        · split at h
          · rcases List.mem_singleton.mp h with rfl
            exact ⟨hc0, hcg, by omega, by omega⟩
          · cases h
      · split at h
        · rcases List.mem_singleton.mp h with rfl
          exact ⟨by omega, by omega, hc0, hcg⟩
        · cases h
    · split at h
      · rcases List.mem_singleton.mp h with rfl
        exact ⟨by omega, by omega, hc0, hcg⟩
      · cases h
  · split at h
    · obtain ⟨off, _, hoff⟩ := List.mem_filterMap.mp h
      dsimp only at hoff
      by_cases hin : inB g (ctr g + off.1, ctr g + off.2)
      · rw [if_pos hin] at hoff
        cases hoff
        exact hin
      · rw [if_neg hin] at hoff
        cases hoff
    · cases h

theorem diamondDots_inB {g : ℕ} {cx : ℤ} (hg : 1 ≤ g) :
    ∀ d ∈ diamondDots g cx, inB g d := by
  intro d hd
  unfold diamondDots at hd
  obtain ⟨r, _, hr⟩ := List.mem_flatMap.mp (List.mem_dedup.mp hd)
  exact mem_diamondRadiusDots_inB hg hr

/-! Mandala generator lemmas. -/

theorem mandalaTemplate_dots (a : Analysis) (g : ℕ) (o : Offs) :
    (mandalaTemplate a g o).dots =
      (mandalaDots g (a.complexity.getD 5) (a.count.getD 8) o).dedup := rfl

theorem mandalaTemplate_conns (a : Analysis) (g : ℕ) (o : Offs) :
    (mandalaTemplate a g o).connections =
      mandalaConns g (a.complexity.getD 5) (a.count.getD 8) o := rfl

theorem mandalaDots_inB {g : ℕ} {cx seg : ℤ} {o : Offs} (hg : 1 ≤ g) :
    ∀ d ∈ mandalaDots g cx seg o, inB g d := by
  intro d hd
  unfold mandalaDots at hd
  rcases List.mem_cons.mp hd with rfl | hd
  · exact ctr_inB hg
  · obtain ⟨r, _, hr⟩ := List.mem_flatMap.mp hd
    obtain ⟨i, _, hi⟩ := List.mem_filterMap.mp hr
    exact polarCandidate_some_inB hi

theorem mandalaConns_closed {g : ℕ} {cx seg : ℤ} {o : Offs} :
    ∀ pr ∈ mandalaConns g cx seg o,
      pr.1 ∈ mandalaDots g cx seg o ∧ pr.2 ∈ mandalaDots g cx seg o := by
  intro pr hpr
  have hC : (ctr g, ctr g) ∈ mandalaDots g cx seg o := List.mem_cons_self _ _
  unfold mandalaConns at hpr
  obtain ⟨r, hrs, hr⟩ := List.mem_flatMap.mp hpr
  have hrd : ∀ j, j < (mandalaRingPts g o seg r).length →
      (mandalaRingPts g o seg r).getD j (ctr g, ctr g) ∈
        mandalaDots g cx seg o := by
    intro j hj
    exact List.mem_cons_of_mem _
      (List.mem_flatMap.mpr ⟨r, hrs, getD_mem _ hj⟩)
  unfold mandalaRingConns at hr
  obtain ⟨i, hi, h2⟩ := List.mem_flatMap.mp hr
  have hi' := List.mem_range.mp hi
  rcases List.mem_cons.mp h2 with rfl | h3
  · exact ⟨hrd _ hi', hrd _ (Nat.mod_lt _ (by omega))⟩
  · split at h3
    · rcases List.mem_singleton.mp h3 with rfl
      exact ⟨hC, hrd _ hi'⟩
    · cases h3

/-! Geometric generator lemmas. -/

theorem geometricTemplate_dots (a : Analysis) (g : ℕ) :
    (geometricTemplate a g).dots =
      geometricDots g (geomStep (a.complexity.getD 5)).toNat := rfl

theorem geometricTemplate_conns (a : Analysis) (g : ℕ) :
    (geometricTemplate a g).connections =
      allPairs (geomNear (geomStep (a.complexity.getD 5)).toNat)
        (geometricDots g (geomStep (a.complexity.getD 5)).toNat) := rfl

theorem geometricDots_inB {g s : ℕ} : ∀ d ∈ geometricDots g s, inB g d := by
  intro d hd
  unfold geometricDots at hd
  obtain ⟨i, _, hi⟩ := List.mem_flatMap.mp hd
  obtain ⟨j, _, hj⟩ := List.mem_filterMap.mp hi
  split at hj
  · rename_i hlt
    cases hj
    refine ⟨Int.ofNat_nonneg i, ?_, Int.ofNat_nonneg j, ?_⟩
    · show (i : ℤ) < (g : ℤ)
      exact_mod_cast hlt.1
    · show (j : ℤ) < (g : ℤ)
      exact_mod_cast hlt.2
  · cases hj

/-! Spiral generator lemmas. -/

/-- Chain a list of dots starting from an optional previous dot: one
connection per consecutive pair. -/
def chainConnsFrom : Option Dot → List Dot → List Conn
  | _, [] => []
  | none, d :: rest => chainConnsFrom (some d) rest
  | some p, d :: rest => (p, d) :: chainConnsFrom (some d) rest

theorem chainConnsFrom_some_eq_zip :
    ∀ (l : List Dot) (p : Dot),
      chainConnsFrom (some p) l = (p :: l).zip l := by
  intro l
  induction l with
  | nil => intro p; rfl
  | cons d rest ih =>
    intro p
    show (p, d) :: chainConnsFrom (some d) rest = (p, d) :: (d :: rest).zip rest
    rw [ih d]

theorem chainConnsFrom_none_eq_zip (l : List Dot) :
    chainConnsFrom none l = l.zip l.tail := by
  cases l with
  | nil => rfl
  | cons d rest =>
    show chainConnsFrom (some d) rest = (d :: rest).zip rest
    exact chainConnsFrom_some_eq_zip rest d

theorem spiralGo_conns_eq_chain {g : ℕ} {rad : ℕ → Flt} {off : ℕ → Flt × Flt} :
    ∀ (fuel i : ℕ) (prev : Option Dot),
      (spiralGo g rad off fuel i prev).2 =
        chainConnsFrom prev (spiralGo g rad off fuel i prev).1 := by
  intro fuel
  induction fuel with
  | zero => intro i prev; cases prev <;> rfl
  | succ fuel ih =>
    intro i prev
    by_cases hb : spiralBreakAt g (rad i)
    · simp only [spiralGo, if_pos hb]
      cases prev <;> rfl
    · cases hp : polarCandidate g (ctr g) (off i) with
      | some d =>
        simp only [spiralGo, if_neg hb, hp]
        rw [ih (i + 1) (some d)]
        cases prev <;> rfl
      | none =>
        simp only [spiralGo, if_neg hb, hp]
        exact ih (i + 1) prev

/-- The indices the spiral loop actually processes: the prefix of
`range(int(20 + complexity*2))` on which the break test (on the float
radius values `rad`) has not fired. -/
def spiralIdx (g : ℕ) (cx : ℤ) (rad : ℕ → Flt) : List ℕ :=
  (List.range (20 + 2 * cx).toNat).takeWhile fun i =>
    decide (¬ spiralBreakAt g (rad i))

/-- The retained dots of the spiral walk, in order. -/
def spiralPts (g : ℕ) (cx : ℤ) (rad : ℕ → Flt) (off : ℕ → Flt × Flt) :
    List Dot :=
  (spiralIdx g cx rad).filterMap fun i => polarCandidate g (ctr g) (off i)

/-- The first step index within the iteration budget `cap` at which the
float radius reaches `center - 1` (`cap` itself if none does). -/
def firstReach (g : ℕ) (cap : ℕ) (rad : ℕ → Flt) : ℕ :=
  (List.range cap).findIdx fun i => decide (spiralBreakAt g (rad i))

theorem spiralGo_dots_eq {g : ℕ} {rad : ℕ → Flt} {off : ℕ → Flt × Flt} :
    ∀ (fuel i : ℕ) (prev : Option Dot),
      (spiralGo g rad off fuel i prev).1 =
        ((List.range' i fuel).takeWhile fun j =>
            decide (¬ spiralBreakAt g (rad j))).filterMap
          (fun j => polarCandidate g (ctr g) (off j)) := by
  intro fuel
  induction fuel with
  | zero => intro i prev; rfl
  | succ fuel ih =>
    intro i prev
    rw [List.range'_succ, List.takeWhile_cons]
    by_cases hb : spiralBreakAt g (rad i)
    · simp [spiralGo, hb]
    · cases hp : polarCandidate g (ctr g) (off i) with
      | some d => simp [spiralGo, hb, hp, List.filterMap_cons, ih (i + 1)]
      | none => simp [spiralGo, hb, hp, List.filterMap_cons, ih (i + 1)]

theorem spiralTemplate_dots (a : Analysis) (g : ℕ) (o : Offs) :
    (spiralTemplate a g o).dots =
      (spiralPts g (a.complexity.getD 5) o.spiralRad o.spiralStep).dedup := by
  show ((spiralGo g o.spiralRad o.spiralStep
      (20 + 2 * a.complexity.getD 5).toNat 0 none).1).dedup = _
  rw [spiralGo_dots_eq]
  unfold spiralPts spiralIdx
  rw [List.range_eq_range']

theorem spiralTemplate_conns (a : Analysis) (g : ℕ) (o : Offs) :
    (spiralTemplate a g o).connections =
      (spiralPts g (a.complexity.getD 5) o.spiralRad o.spiralStep).zip
        (spiralPts g (a.complexity.getD 5) o.spiralRad o.spiralStep).tail := by
  show (spiralGo g o.spiralRad o.spiralStep
      (20 + 2 * a.complexity.getD 5).toNat 0 none).2 = _
  rw [spiralGo_conns_eq_chain, chainConnsFrom_none_eq_zip, spiralGo_dots_eq]
  unfold spiralPts spiralIdx
  rw [List.range_eq_range']

theorem takeWhile_not_length_eq_findIdx {α : Type} (p : α → Bool) :
    ∀ l : List α, (l.takeWhile fun a => !(p a)).length = l.findIdx p := by
  intro l
  induction l with
  | nil => rfl
  | cons a l ih =>
    cases hp : p a <;>
      simp [List.takeWhile_cons, List.findIdx_cons, hp, ih]

theorem spiralIdx_length (g : ℕ) (cx : ℤ) (rad : ℕ → Flt) :
    (spiralIdx g cx rad).length =
      min (20 + 2 * cx).toNat (firstReach g (20 + 2 * cx).toNat rad) := by
  unfold spiralIdx firstReach
  have h : (fun i => decide (¬ spiralBreakAt g (rad i)))
      = fun i => !(decide (spiralBreakAt g (rad i))) := by
    funext i
    exact decide_not
  rw [h, takeWhile_not_length_eq_findIdx]
  have hle := @List.findIdx_le_length ℕ
    (fun i => decide (spiralBreakAt g (rad i)))
    (List.range (20 + 2 * cx).toNat)
  rw [List.length_range] at hle
  omega

/-! Star generator totality. -/

theorem filterMap_length_all_some {α β : Type} {f : α → Option β} :
    ∀ {l : List α}, (∀ a ∈ l, (f a).isSome) → (l.filterMap f).length = l.length := by
  intro l
  induction l with
  | nil => intro; rfl
  | cons a rest ih =>
    intro h
    obtain ⟨b, hb⟩ := Option.isSome_iff_exists.mp (h a (List.mem_cons_self _ _))
    rw [List.filterMap_cons, hb]
    simp only [List.length_cons]
    rw [ih fun x hx => h x (List.mem_cons_of_mem _ hx)]

theorem starOuterRadius_fits {g : ℕ} (hg : 3 ≤ g) :
    0 ≤ ctr g - starOuterRadius g ∧ ctr g + starOuterRadius g < (g : ℤ) := by
  unfold starOuterRadius ctr
  omega

theorem starInnerRadius_fits {g : ℕ} (hg : 3 ≤ g) :
    0 ≤ ctr g - starInnerRadius g ∧ ctr g + starInnerRadius g < (g : ℤ) := by
  unfold starInnerRadius ctr
  rw [Int.fdiv_eq_ediv _ (by omega)]
  omega

theorem starOuterPts_length {g n : ℕ} {o : Offs} (hg : 3 ≤ g)
    (hOut : ∀ i, (o.starOuter i).1.AbsLe (starOuterRadius g) ∧
                 (o.starOuter i).2.AbsLe (starOuterRadius g)) :
    (starOuterPts g n o).length = n := by
  unfold starOuterPts
  rw [filterMap_length_all_some, List.length_range]
  intro i _
  rw [polarCandidate_of_absLe (hOut i).1 (hOut i).2
    (starOuterRadius_fits hg).1 (starOuterRadius_fits hg).2]
  rfl

theorem starInnerPts_length {g n : ℕ} {o : Offs} (hg : 3 ≤ g)
    (hIn : ∀ i, (o.starInner i).1.AbsLe (starInnerRadius g) ∧
                (o.starInner i).2.AbsLe (starInnerRadius g)) :
    (starInnerPts g n o).length = n := by
  unfold starInnerPts
  rw [filterMap_length_all_some, List.length_range]
  intro i _
  rw [polarCandidate_of_absLe (hIn i).1 (hIn i).2
    (starInnerRadius_fits hg).1 (starInnerRadius_fits hg).2]
  rfl

theorem starConnParts_isSome {g : ℕ} {cx : ℤ} {n : ℕ} {o : Offs} (hg : 3 ≤ g)
    (hOut : ∀ i, (o.starOuter i).1.AbsLe (starOuterRadius g) ∧
                 (o.starOuter i).2.AbsLe (starOuterRadius g))
    (hIn : ∀ i, (o.starInner i).1.AbsLe (starInnerRadius g) ∧
                (o.starInner i).2.AbsLe (starInnerRadius g)) :
    (starConnParts g cx n o).isSome := by
  unfold starConnParts
  apply listMapM_isSome
  intro i hi
  have hi' : i < n := List.mem_range.mp hi
  have hlo : (starOuterPts g n o).length = n := starOuterPts_length hg hOut
  have hli : (starInnerPts g n o).length = n := starInnerPts_length hg hIn
  obtain ⟨op, hop⟩ : ∃ op, (starOuterPts g n o).get? i = some op := by
    rw [List.get?_eq_get (by omega)]
    exact ⟨_, rfl⟩
  obtain ⟨pv, hpv⟩ : ∃ pv, (starInnerPts g n o).get?
      (if i = 0 then (starInnerPts g n o).length - 1 else i - 1) = some pv := by
    have hk : (if i = 0 then (starInnerPts g n o).length - 1 else i - 1)
        < (starInnerPts g n o).length := by
      rw [hli]
      split <;> omega
    rw [List.get?_eq_get hk]
    exact ⟨_, rfl⟩
  obtain ⟨cv, hcv⟩ : ∃ cv, (starInnerPts g n o).get? i = some cv := by
    rw [List.get?_eq_get (by omega)]
    exact ⟨_, rfl⟩
  simp only [List.get?_eq_getElem?] at hop hpv hcv
  simp [hop, hpv, hcv]

/-! Geometric generator: grid structure lemmas. -/

theorem lt_ceilDiv_iff {g s a : ℕ} (hs : 1 ≤ s) :
    a < (g + s - 1) / s ↔ a * s < g := by
  have h1 : a < (g + s - 1) / s ↔ (a + 1) * s ≤ g + s - 1 := by
    rw [Nat.lt_iff_add_one_le, Nat.le_div_iff_mul_le hs]
  rw [h1, add_mul, one_mul]
  omega

theorem mem_rangeStep {g s m : ℕ} (hs : 1 ≤ s) :
    m ∈ rangeStep g s ↔ s ∣ m ∧ m < g := by
  unfold rangeStep
  simp only [List.mem_map, List.mem_range]
  constructor
  · rintro ⟨a, ha, rfl⟩
    exact ⟨Dvd.intro_left a rfl, (lt_ceilDiv_iff hs).mp ha⟩
  · rintro ⟨⟨a, rfl⟩, hm⟩
    refine ⟨a, (lt_ceilDiv_iff hs).mpr ?_, ?_⟩
    · rwa [Nat.mul_comm a s]
    · exact Nat.mul_comm a s

theorem rangeStep_nodup {g s : ℕ} (hs : 1 ≤ s) : (rangeStep g s).Nodup := by
  unfold rangeStep
  refine List.Nodup.map ?_ (List.nodup_range _)
  intro a b hab
  exact Nat.eq_of_mul_eq_mul_right hs hab

theorem rangeStep_length (g s : ℕ) : (rangeStep g s).length = (g + s - 1) / s := by
  unfold rangeStep
  rw [List.length_map, List.length_range]

theorem mem_rangeStep_lt {g s m : ℕ} (hs : 1 ≤ s) (h : m ∈ rangeStep g s) :
    m < g := ((mem_rangeStep hs).mp h).2

theorem mem_geometricDots {g s : ℕ} {d : Dot} (hs : 1 ≤ s) :
    d ∈ geometricDots g s ↔
      0 ≤ d.1 ∧ d.1 < (g : ℤ) ∧ 0 ≤ d.2 ∧ d.2 < (g : ℤ) ∧
        ((s : ℤ) ∣ d.1 ∧ (s : ℤ) ∣ d.2) := by
  unfold geometricDots
  simp only [List.mem_flatMap, List.mem_filterMap]
  constructor
  · rintro ⟨i, hi, j, hj, hd⟩
    split at hd
    · rename_i hlt
      cases hd
      obtain ⟨hdi, _⟩ := (mem_rangeStep hs).mp hi
      obtain ⟨hdj, _⟩ := (mem_rangeStep hs).mp hj
      refine ⟨Int.ofNat_nonneg i, ?_, Int.ofNat_nonneg j, ?_, ?_, ?_⟩
      · show (i : ℤ) < (g : ℤ)
        exact_mod_cast hlt.1
      · show (j : ℤ) < (g : ℤ)
        exact_mod_cast hlt.2
      · show (s : ℤ) ∣ (i : ℤ)
        exact_mod_cast hdi
      · show (s : ℤ) ∣ (j : ℤ)
        exact_mod_cast hdj
    · cases hd
  · rintro ⟨h1, h2, h3, h4, h5, h6⟩
    have e1 : d.1 = ((d.1.toNat : ℕ) : ℤ) := (Int.toNat_of_nonneg h1).symm
    have e2 : d.2 = ((d.2.toNat : ℕ) : ℤ) := (Int.toNat_of_nonneg h3).symm
    have hd1 : s ∣ d.1.toNat := by
      rw [e1] at h5
      exact_mod_cast h5
    have hd2 : s ∣ d.2.toNat := by
      rw [e2] at h6
      exact_mod_cast h6
    refine ⟨d.1.toNat, (mem_rangeStep hs).mpr ⟨hd1, by omega⟩,
            d.2.toNat, (mem_rangeStep hs).mpr ⟨hd2, by omega⟩, ?_⟩
    rw [if_pos ⟨by omega, by omega⟩, ← e1, ← e2]

theorem geometricDots_nodup {g s : ℕ} (hs : 1 ≤ s) :
    (geometricDots g s).Nodup := by
  unfold geometricDots
  rw [List.nodup_flatMap]
  constructor
  · intro i _
    refine List.Nodup.filterMap ?_ (rangeStep_nodup hs)
    intro a a' b hb hb'
    simp only [Option.mem_def] at hb hb'
    split at hb
    · injection hb with hb
      split at hb'
      · injection hb' with hb'
        have h2 : ((a : ℤ)) = ((a' : ℤ)) :=
          congrArg Prod.snd (hb.trans hb'.symm)
        exact_mod_cast h2
      · cases hb'
    · cases hb
  · refine List.Pairwise.imp ?_ (rangeStep_nodup hs)
    intro a b hab x hxa hxb
    simp only [List.mem_filterMap, Option.mem_def] at hxa hxb
    obtain ⟨j, _, hj⟩ := hxa
    obtain ⟨j', _, hj'⟩ := hxb
    split at hj
    · injection hj with hj
      split at hj'
      · injection hj' with hj'
        have h2 : ((a : ℤ)) = ((b : ℤ)) :=
          congrArg Prod.fst (hj.trans hj'.symm)
        exact hab (by exact_mod_cast h2)
      · cases hj'
    · cases hj

theorem geometricDots_length {g s : ℕ} (hs : 1 ≤ s) (hg : 1 ≤ g) :
    (geometricDots g s).length = ((g + s - 1) / s) * ((g + s - 1) / s) := by
  unfold geometricDots
  rw [List.length_flatMap]
  have hinner : ∀ i ∈ rangeStep g s,
      ((rangeStep g s).filterMap fun j =>
        if i < g ∧ j < g then some (((i : ℤ), (j : ℤ)) : Dot) else none).length
        = (g + s - 1) / s := by
    intro i hi
    rw [filterMap_length_all_some, rangeStep_length]
    intro j hj
    rw [if_pos ⟨mem_rangeStep_lt hs hi, mem_rangeStep_lt hs hj⟩]
    rfl
  have hmap : List.map
      (List.length ∘ fun i => (rangeStep g s).filterMap fun j =>
        if i < g ∧ j < g then some (((i : ℤ), (j : ℤ)) : Dot) else none)
      (rangeStep g s) = List.map (fun _ => (g + s - 1) / s) (rangeStep g s) :=
    List.map_congr_left fun i hi => hinner i hi
  rw [hmap, List.map_const', List.sum_replicate, smul_eq_mul, rangeStep_length]

theorem ceilDiv_antitone {g s s' : ℕ} (hs' : 1 ≤ s') (hle : s' ≤ s) :
    (g + s - 1) / s ≤ (g + s' - 1) / s' := by
  have hs : 1 ≤ s := le_trans hs' hle
  rcases Nat.eq_zero_or_pos ((g + s - 1) / s) with h0 | h0
  · rw [h0]
    exact Nat.zero_le _
  · have h1 : (g + s - 1) / s - 1 < (g + s - 1) / s := by omega
    have h2 : ((g + s - 1) / s - 1) * s < g := (lt_ceilDiv_iff hs).mp h1
    have h3 : ((g + s - 1) / s - 1) * s' ≤ ((g + s - 1) / s - 1) * s :=
      Nat.mul_le_mul_left _ hle
    have h4 : (g + s - 1) / s - 1 < (g + s' - 1) / s' :=
      (lt_ceilDiv_iff hs').mpr (lt_of_le_of_lt h3 h2)
    omega

theorem geomStep_antitone {cx cx' : ℤ} (h : cx ≤ cx') :
    geomStep cx' ≤ geomStep cx := by
  unfold geomStep
  have h1 : (10 - cx').fdiv 3 ≤ (10 - cx).fdiv 3 := by
    rw [Int.fdiv_eq_ediv _ (by omega), Int.fdiv_eq_ediv _ (by omega)]
    exact Int.ediv_le_ediv (by omega) (by omega)
  omega

theorem geomStep_pos (cx : ℤ) : 1 ≤ geomStep cx := by
  unfold geomStep
  omega

/-! Per-template summary lemmas: dot bounds, connection closure, no
duplicate dots. -/

theorem flowerTemplate_ok {a : Analysis} {g : ℕ} {o : Offs} (hg : 1 ≤ g) :
    (∀ d ∈ (flowerTemplate a g o).dots, inB g d) ∧
    (∀ pr ∈ (flowerTemplate a g o).connections,
      pr.1 ∈ (flowerTemplate a g o).dots ∧ pr.2 ∈ (flowerTemplate a g o).dots) ∧
    (flowerTemplate a g o).dots.Nodup := by
  refine ⟨?_, ?_, ?_⟩
  · intro d hd
    rw [flowerTemplate_dots] at hd
    exact flowerDots_inB hg _ (List.mem_dedup.mp hd)
  · intro pr hpr
    rw [flowerTemplate_conns] at hpr
    obtain ⟨h1, h2⟩ := flowerConns_closed pr hpr
    rw [flowerTemplate_dots]
    exact ⟨List.mem_dedup.mpr h1, List.mem_dedup.mpr h2⟩
  · rw [flowerTemplate_dots]
    exact List.nodup_dedup _

theorem lotusTemplate_ok {a : Analysis} {g : ℕ} {o : Offs} (hg : 3 ≤ g)
    (hIn : ∀ i, (o.lotusInner i).1.AbsLe (lotusInnerRadius g) ∧
                (o.lotusInner i).2.AbsLe (lotusInnerRadius g)) :
    (∀ d ∈ (lotusTemplate a g o).dots, inB g d) ∧
    (∀ pr ∈ (lotusTemplate a g o).connections,
      pr.1 ∈ (lotusTemplate a g o).dots ∧ pr.2 ∈ (lotusTemplate a g o).dots) ∧
    (lotusTemplate a g o).dots.Nodup := by
  have hg1 : 1 ≤ g := by omega
  refine ⟨?_, ?_, ?_⟩
  · intro d hd
    rw [lotusTemplate_dots] at hd
    exact lotusDots_inB hg1 _ (List.mem_dedup.mp hd)
  · intro pr hpr
    rw [lotusTemplate_conns] at hpr
    obtain ⟨h1, h2⟩ := lotusConns_closed hg hIn pr hpr
    rw [lotusTemplate_dots]
    exact ⟨List.mem_dedup.mpr h1, List.mem_dedup.mpr h2⟩
  · rw [lotusTemplate_dots]
    exact List.nodup_dedup _

theorem starTemplate_ok {a : Analysis} {g : ℕ} {o : Offs} {p : KolamPattern}
    (hg : 1 ≤ g) (h : starTemplate a g o = some p) :
    (∀ d ∈ p.dots, inB g d) ∧
    (∀ pr ∈ p.connections, pr.1 ∈ p.dots ∧ pr.2 ∈ p.dots) ∧
    p.dots.Nodup := by
  obtain ⟨ps, hps, hdots, hconns⟩ := starTemplate_some h
  refine ⟨?_, ?_, ?_⟩
  · intro d hd
    rw [hdots] at hd
    exact starDots_inB hg _ (List.mem_dedup.mp hd)
  · intro pr hpr
    rw [hconns] at hpr
    obtain ⟨h1, h2⟩ := starConns_closed hps pr hpr
    rw [hdots]
    exact ⟨List.mem_dedup.mpr h1, List.mem_dedup.mpr h2⟩
  · rw [hdots]
    exact List.nodup_dedup _

theorem diamondTemplate_ok {a : Analysis} {g : ℕ} (hg : 1 ≤ g) :
    (∀ d ∈ (diamondTemplate a g).dots, inB g d) ∧
    (∀ pr ∈ (diamondTemplate a g).connections,
      pr.1 ∈ (diamondTemplate a g).dots ∧ pr.2 ∈ (diamondTemplate a g).dots) ∧
    (diamondTemplate a g).dots.Nodup := by
  refine ⟨?_, ?_, ?_⟩
  · intro d hd
    rw [diamondTemplate_dots] at hd
    exact diamondDots_inB hg _ hd
  · intro pr hpr
    rw [diamondTemplate_conns] at hpr
    rw [diamondTemplate_dots]
    exact mem_allPairs hpr
  · rw [diamondTemplate_dots]
    unfold diamondDots
    exact List.nodup_dedup _

theorem spiralPts_inB {g : ℕ} {cx : ℤ} {rad : ℕ → Flt} {off : ℕ → Flt × Flt} :
    ∀ d ∈ spiralPts g cx rad off, inB g d := by
  intro d hd
  obtain ⟨i, _, hi⟩ := List.mem_filterMap.mp hd
  exact polarCandidate_some_inB hi

theorem spiralTemplate_ok {a : Analysis} {g : ℕ} {o : Offs} :
    (∀ d ∈ (spiralTemplate a g o).dots, inB g d) ∧
    (∀ pr ∈ (spiralTemplate a g o).connections,
      pr.1 ∈ (spiralTemplate a g o).dots ∧ pr.2 ∈ (spiralTemplate a g o).dots) ∧
    (spiralTemplate a g o).dots.Nodup := by
  refine ⟨?_, ?_, ?_⟩
  · intro d hd
    rw [spiralTemplate_dots] at hd
    exact spiralPts_inB _ (List.mem_dedup.mp hd)
  · intro pr hpr
    rw [spiralTemplate_conns] at hpr
    have hzip := List.mem_zip (show (pr.1, pr.2) ∈ _ from hpr)
    rw [spiralTemplate_dots]
    exact ⟨List.mem_dedup.mpr hzip.1,
           List.mem_dedup.mpr (List.mem_of_mem_tail hzip.2)⟩
  · rw [spiralTemplate_dots]
    exact List.nodup_dedup _

theorem mandalaTemplate_ok {a : Analysis} {g : ℕ} {o : Offs} (hg : 1 ≤ g) :
    (∀ d ∈ (mandalaTemplate a g o).dots, inB g d) ∧
    (∀ pr ∈ (mandalaTemplate a g o).connections,
      pr.1 ∈ (mandalaTemplate a g o).dots ∧ pr.2 ∈ (mandalaTemplate a g o).dots) ∧
    (mandalaTemplate a g o).dots.Nodup := by
  refine ⟨?_, ?_, ?_⟩
  · intro d hd
    rw [mandalaTemplate_dots] at hd
    exact mandalaDots_inB hg _ (List.mem_dedup.mp hd)
  · intro pr hpr
    rw [mandalaTemplate_conns] at hpr
    obtain ⟨h1, h2⟩ := mandalaConns_closed pr hpr
    rw [mandalaTemplate_dots]
    exact ⟨List.mem_dedup.mpr h1, List.mem_dedup.mpr h2⟩
  · rw [mandalaTemplate_dots]
    exact List.nodup_dedup _

theorem geometricTemplate_ok {a : Analysis} {g : ℕ} :
    (∀ d ∈ (geometricTemplate a g).dots, inB g d) ∧
    (∀ pr ∈ (geometricTemplate a g).connections,
      pr.1 ∈ (geometricTemplate a g).dots ∧ pr.2 ∈ (geometricTemplate a g).dots) ∧
    (geometricTemplate a g).dots.Nodup := by
  have hs : 1 ≤ (geomStep (a.complexity.getD 5)).toNat := by
    have := geomStep_pos (a.complexity.getD 5)
    omega
  refine ⟨?_, ?_, ?_⟩
  · intro d hd
    rw [geometricTemplate_dots] at hd
    exact geometricDots_inB _ hd
  · intro pr hpr
    rw [geometricTemplate_conns] at hpr
    rw [geometricTemplate_dots]
    exact mem_allPairs hpr
  · rw [geometricTemplate_dots]
    exact geometricDots_nodup hs

/-! Validator helper lemmas. -/

/-- The zero float value satisfies every nonnegative magnitude bound. -/
theorem fltZero_absLe {r : ℤ} (hr : 0 ≤ r) : fltZero.AbsLe r := by
  constructor
  · decide
  · show |(0 : ℤ)| ≤ r * 1
    simpa using hr

theorem validate_pt_eq (gd : Guidance) :
    (validateAiGuidance gd).pattern_type =
      if optMemStr gd.pattern_type validPatterns then gd.pattern_type
      else some (.vstr "flower") := rfl

theorem validate_sym_eq (gd : Guidance) :
    (validateAiGuidance gd).symmetry_type =
      if optMemStr gd.symmetry_type validSymmetries then gd.symmetry_type
      else some (.vstr "rotational") := rfl

theorem validate_cx_eq (gd : Guidance) :
    (validateAiGuidance gd).complexity =
      if isIntIn (gd.complexity.getD (.vint 5)) 1 9 then gd.complexity
      else some (.vint 5) := rfl

theorem validate_ct_eq (gd : Guidance) :
    (validateAiGuidance gd).suggested_count =
      if isIntIn (gd.suggested_count.getD (.vint 8)) 3 16 then
        gd.suggested_count
      else some (.vint 8) := rfl

theorem optMemStr_true {v : Option PyVal} {xs : List String}
    (h : optMemStr v xs = true) : ∃ s, v = some (.vstr s) ∧ s ∈ xs := by
  cases v with
  | none => cases h
  | some pv =>
    cases pv with
    | vstr s => exact ⟨s, rfl, by simpa [optMemStr] using h⟩
    | vint n => cases h
    | vlist l => cases h
    | vother => cases h

theorem isIntIn_true {v : PyVal} {lo hi : ℤ} (h : isIntIn v lo hi = true) :
    ∃ n, v = .vint n ∧ lo ≤ n ∧ n ≤ hi := by
  cases v with
  | vint n =>
    rw [show isIntIn (.vint n) lo hi = (decide (lo ≤ n) && decide (n ≤ hi))
        from rfl, Bool.and_eq_true, decide_eq_true_eq, decide_eq_true_eq] at h
    exact ⟨n, rfl, h.1, h.2⟩
  | vstr s => cases h
  | vlist l => cases h
  | vother => cases h

/-- C4 counterexample: on a raw guidance record in which the `complexity` and
`suggested_count` keys are missing, `_validate_ai_guidance` returns a record
in which both keys are still missing — the defaults read by
`guidance.get(key, default)` pass the range check, so nothing is written
back.  The returned record therefore does not carry an integer complexity in
`[1, 9]`, contradicting the claim that the validator always returns such a
record. -/
theorem c4_missing_keys_counterexample :
    (validateAiGuidance ⟨none, none, none, none, none, none⟩).complexity = none
    ∧ (validateAiGuidance ⟨none, none, none, none, none, none⟩).suggested_count
        = none
    ∧ ¬ ∃ n : ℤ,
        (validateAiGuidance ⟨none, none, none, none, none, none⟩).complexity
            = some (.vint n) ∧ 1 ≤ n ∧ n ≤ 9 := by
  refine ⟨rfl, rfl, ?_⟩
  rintro ⟨n, hn, -⟩
  rw [show (validateAiGuidance ⟨none, none, none, none, none, none⟩).complexity
      = none from rfl] at hn
  cases hn

/-- C4 amended: the validator never raises (it is a total function); the
returned `pattern_type` and `symmetry_type` always lie in the fixed valid
sets; whenever the returned record carries a `complexity` (resp.
`suggested_count`) value at all, it is an integer in `[1, 9]` (resp.
`[3, 16]`) — a present invalid value is reset to 5 (resp. 8), but a missing
key stays missing; the list-typed hint fields are always lists; and the
claim's concrete input `{pattern_type: "not-a-type", complexity: 99,
suggested_count: -5}` yields complexity 5, suggested_count 8 and a valid
pattern type. -/
theorem c4_validator_amended :
    ∀ gd : Guidance,
      (∃ s, (validateAiGuidance gd).pattern_type = some (.vstr s) ∧
        s ∈ validPatterns)
      ∧ (∃ s, (validateAiGuidance gd).symmetry_type = some (.vstr s) ∧
          s ∈ validSymmetries)
      ∧ (∀ v, (validateAiGuidance gd).complexity = some v →
          ∃ n : ℤ, v = .vint n ∧ 1 ≤ n ∧ n ≤ 9)
      ∧ (∀ v, (validateAiGuidance gd).suggested_count = some v →
          ∃ n : ℤ, v = .vint n ∧ 3 ≤ n ∧ n ≤ 16)
      ∧ (∃ l, (validateAiGuidance gd).key_elements = some (.vlist l))
      ∧ (∃ l, (validateAiGuidance gd).drawing_instructions = some (.vlist l))
      ∧ (validateAiGuidance ⟨some (.vstr "not-a-type"), none, some (.vint 99),
            some (.vint (-5)), none, none⟩).complexity = some (.vint 5)
      ∧ (validateAiGuidance ⟨some (.vstr "not-a-type"), none, some (.vint 99),
            some (.vint (-5)), none, none⟩).suggested_count = some (.vint 8)
      ∧ (validateAiGuidance ⟨some (.vstr "not-a-type"), none, some (.vint 99),
            some (.vint (-5)), none, none⟩).pattern_type
          = some (.vstr "flower") := by
  intro gd
  refine ⟨?_, ?_, ?_, ?_, ?_, ?_, rfl, rfl, rfl⟩
  · rw [validate_pt_eq]
    split
    · rename_i h
      obtain ⟨s, hv, hs⟩ := optMemStr_true h
      exact ⟨s, hv, hs⟩
    · exact ⟨"flower", rfl, by simp [validPatterns]⟩
  · rw [validate_sym_eq]
    split
    · rename_i h
      obtain ⟨s, hv, hs⟩ := optMemStr_true h
      exact ⟨s, hv, hs⟩
    · exact ⟨"rotational", rfl, by simp [validSymmetries]⟩
  · rw [validate_cx_eq]
    split
    · rename_i h
      intro v hv
      rw [hv] at h
      have h' : isIntIn v 1 9 = true := by
        rw [show (some v).getD (PyVal.vint 5) = v from rfl] at h
        exact h
      exact isIntIn_true h'
    · intro v hv
      injection hv with hv
      exact ⟨5, hv.symm, by norm_num, by norm_num⟩
  · rw [validate_ct_eq]
    split
    · rename_i h
      intro v hv
      rw [hv] at h
      have h' : isIntIn v 3 16 = true := by
        rw [show (some v).getD (PyVal.vint 8) = v from rfl] at h
        exact h
      exact isIntIn_true h'
    · intro v hv
      injection hv with hv
      exact ⟨8, hv.symm, by norm_num, by norm_num⟩
  · show ∃ l, (match gd.key_elements with
      | some (.vlist l) => some (PyVal.vlist l)
      | _ => some (.vlist [.vstr "center", .vstr "symmetry", .vstr "balance"]))
        = some (.vlist l)
    split
    · exact ⟨_, rfl⟩
    · exact ⟨_, rfl⟩
  · show ∃ l, (match gd.drawing_instructions with
      | some (.vlist l) => some (PyVal.vlist l)
      | _ => some (.vlist [.vstr "Start from center",
                           .vstr "Create symmetric elements",
                           .vstr "Connect with flowing lines"]))
        = some (.vlist l)
    split
    · exact ⟨_, rfl⟩
    · exact ⟨_, rfl⟩

/-- Witness for the amended C4 theorem at the claim's concrete input. -/
theorem c4_validator_amended_witness :
    ∃ n : ℤ, PyVal.vint 5 = .vint n ∧ 1 ≤ n ∧ n ≤ 9 :=
  (c4_validator_amended ⟨some (.vstr "not-a-type"), none, some (.vint 99),
      some (.vint (-5)), none, none⟩).2.2.1 (.vint 5) rfl

/-- C5: for every `pattern_type` string outside the eight recognized
archetypes (for example `"blorp"`), `_create_pattern_from_analysis` falls
back to the geometric generator; the returned pattern carries the archetype
label `"geometric"`, and its dots are exactly the lattice points with both
coordinates multiples of `step = max(1, (10 - complexity) // 3)` below
`gridSize`. -/
theorem c5_geometric_fallback :
    ∀ (s : String),
      s ∉ ["flower", "lotus", "star", "diamond", "spiral", "mandala",
           "geometric", "traditional"] →
      ∀ (sy : Option String) (cc cnt sc : Option ℤ) (cu : Option String)
        (g : ℕ) (o : Offs),
      createPatternFromAnalysis ⟨some s, sy, cc, cnt, sc, cu⟩ g o
        = some (geometricTemplate ⟨some s, sy, cc, cnt, sc, cu⟩ g)
      ∧ (geometricTemplate ⟨some s, sy, cc, cnt, sc, cu⟩ g).pattern_type
          = "geometric"
      ∧ geomStep (cc.getD 5) = max 1 ((10 - cc.getD 5).fdiv 3)
      ∧ ∀ d : Dot,
          d ∈ (geometricTemplate ⟨some s, sy, cc, cnt, sc, cu⟩ g).dots ↔
            (0 ≤ d.1 ∧ d.1 < (g : ℤ) ∧ 0 ≤ d.2 ∧ d.2 < (g : ℤ) ∧
              ((geomStep (cc.getD 5)).toNat : ℤ) ∣ d.1 ∧
              ((geomStep (cc.getD 5)).toNat : ℤ) ∣ d.2) := by
  intro s hs sy cc cnt sc cu g o
  simp only [List.mem_cons, List.not_mem_nil, or_false, not_or] at hs
  obtain ⟨h1, h2, h3, h4, h5, h6, h7, h8⟩ := hs
  have hdisp : createPatternFromAnalysis ⟨some s, sy, cc, cnt, sc, cu⟩ g o
      = some (geometricTemplate ⟨some s, sy, cc, cnt, sc, cu⟩ g) := by
    unfold createPatternFromAnalysis
    split
    · next heq => exact absurd heq h1
    · next heq => exact absurd heq h2
    · next heq => exact absurd heq h3
    · next heq => exact absurd heq h4
    · next heq => exact absurd heq h5
    · next heq => exact absurd heq h6
    · next heq => exact absurd heq h7
    · next heq => exact absurd heq h8
    · rfl
  refine ⟨hdisp, rfl, rfl, ?_⟩
  intro d
  rw [geometricTemplate_dots]
  refine mem_geometricDots ?_
  show 1 ≤ (geomStep (cc.getD 5)).toNat
  have := geomStep_pos (cc.getD 5)
  omega

/-- Witness for C5 at the unrecognized string `"blorp"` on a grid-7 request:
the dispatcher returns the geometric fallback pattern, its archetype label is
`"geometric"`, and the origin is one of its grid dots. -/
theorem c5_geometric_fallback_witness :
    createPatternFromAnalysis ⟨some "blorp", none, none, none, none, none⟩ 7
        zeroOffs
      = some (geometricTemplate ⟨some "blorp", none, none, none, none, none⟩ 7)
    ∧ (geometricTemplate ⟨some "blorp", none, none, none, none, none⟩
        7).pattern_type = "geometric"
    ∧ (((0 : ℤ), (0 : ℤ)) : Dot) ∈
        (geometricTemplate ⟨some "blorp", none, none, none, none, none⟩
          7).dots :=
  ⟨(c5_geometric_fallback "blorp" (by decide) none none none none none 7
      zeroOffs).1,
   (c5_geometric_fallback "blorp" (by decide) none none none none none 7
      zeroOffs).2.1,
   ((c5_geometric_fallback "blorp" (by decide) none none none none none 7
      zeroOffs).2.2.2 ((0, 0) : Dot)).mpr (by decide)⟩

/-- C8 counterexample: at a concrete request, the traditional template's
output is identical, field for field, to the plain flower template's output
on the same analysis — in particular its `pattern_type` is `"flower"` and its
cultural label equals the flower one, so no field of the result lets the
caller distinguish a traditional request from a plain flower request. -/
theorem c8_traditional_counterexample :
    traditionalTemplate ⟨some "flower", none, none, none, none, none⟩ 7 zeroOffs
        = flowerTemplate ⟨some "flower", none, none, none, none, none⟩ 7 zeroOffs
    ∧ (traditionalTemplate ⟨some "flower", none, none, none, none, none⟩ 7
        zeroOffs).pattern_type = "flower"
    ∧ (traditionalTemplate ⟨some "flower", none, none, none, none, none⟩ 7
        zeroOffs).cultural_significance
      = (flowerTemplate ⟨some "flower", none, none, none, none, none⟩ 7
        zeroOffs).cultural_significance :=
  ⟨rfl, rfl, rfl⟩

/-- C8 amended: `_create_traditional_template` overwrites the analysis's
`pattern_type` with `'flower'` and returns exactly the flower generator's
output; since the flower generator never reads `pattern_type`, the result is
identical to a plain flower synthesis of the same analysis, with
`pattern_type = "flower"` and no distinguishing cultural label. -/
theorem c8_traditional_amended :
    ∀ (a : Analysis) (g : ℕ) (o : Offs),
      traditionalTemplate a g o
          = flowerTemplate { a with pattern_type := some "flower" } g o
      ∧ traditionalTemplate a g o = flowerTemplate a g o
      ∧ (traditionalTemplate a g o).pattern_type = "flower" := by
  intro a g o
  exact ⟨rfl, rfl, rfl⟩

/-- C1: on the declared domain (gridSize ≥ 3, complexity an integer in
`[1, 9]`, float offsets bounded by their radii as the cosine/sine products
are), synthesis is total: the dispatcher returns a pattern for every
archetype string (`isSome`, covering the star generator's indexing, the only
possible raise); the diamond ring-selection divisor `10 - complexity` equals
its floored-at-1 variant and is nonzero (so `radius % (10 - complexity)` is
well defined even at complexity 9), and the mandala ring step is likewise
positive. -/
theorem c1_synthesis_total :
    ∀ (a : Analysis) (g : ℕ) (o : Offs),
      3 ≤ g →
      1 ≤ a.complexity.getD 5 → a.complexity.getD 5 ≤ 9 →
      (∀ i, (o.starOuter i).1.AbsLe (starOuterRadius g) ∧
            (o.starOuter i).2.AbsLe (starOuterRadius g)) →
      (∀ i, (o.starInner i).1.AbsLe (starInnerRadius g) ∧
            (o.starInner i).2.AbsLe (starInnerRadius g)) →
      (createPatternFromAnalysis a g o).isSome
      ∧ diamondModulus (a.complexity.getD 5)
          = max 1 (10 - a.complexity.getD 5)
      ∧ 1 ≤ diamondModulus (a.complexity.getD 5)
      ∧ 1 ≤ mandalaRingStep (a.complexity.getD 5) := by
  intro a g o hg h1 h9 hOut hIn
  refine ⟨?_, ?_, ?_, ?_⟩
  · unfold createPatternFromAnalysis
    split
    · rfl
    · rfl
    · show (Option.map _ (starConnParts g (a.complexity.getD 5)
          (a.count.getD 6).toNat o)).isSome
      obtain ⟨ps, hps⟩ :=
        Option.isSome_iff_exists.mp (starConnParts_isSome hg hOut hIn)
      rw [hps]
      rfl
    · rfl
    · rfl
    · rfl
    · rfl
    · rfl
    · rfl
  · unfold diamondModulus
    omega
  · unfold diamondModulus
    omega
  · unfold mandalaRingStep
    omega

/-- Witness for C1 at a concrete star request on a 7-grid. -/
theorem c1_synthesis_total_witness :
    (createPatternFromAnalysis ⟨some "star", none, some 5, some 6, none, none⟩
        7 zeroOffs).isSome
    ∧ diamondModulus 5 = max 1 (10 - 5)
    ∧ 1 ≤ diamondModulus 5
    ∧ 1 ≤ mandalaRingStep 5 :=
  c1_synthesis_total ⟨some "star", none, some 5, some 6, none, none⟩ 7 zeroOffs
    (by decide) (by decide) (by decide)
    (fun i => ⟨fltZero_absLe (by decide), fltZero_absLe (by decide)⟩)
    (fun i => ⟨fltZero_absLe (by decide), fltZero_absLe (by decide)⟩)

/-- C2: on the declared domain, every dot and both endpoints of every
connection of the synthesized pattern lie on the grid:
`0 ≤ x, y < gridSize`.  The only generator that emits an endpoint without a
bounds guard is the lotus outer loop; its re-evaluated inner candidate is in
bounds because the float offsets `inner_radius*cos/sin` are bounded by
`inner_radius` in magnitude, which is the lotus hypothesis. -/
theorem c2_bounds :
    ∀ (a : Analysis) (g : ℕ) (o : Offs),
      3 ≤ g →
      (∀ i, (o.lotusInner i).1.AbsLe (lotusInnerRadius g) ∧
            (o.lotusInner i).2.AbsLe (lotusInnerRadius g)) →
      ∀ p, createPatternFromAnalysis a g o = some p →
        (∀ d ∈ p.dots, inB g d) ∧
        (∀ pr ∈ p.connections, inB g pr.1 ∧ inB g pr.2) := by
  intro a g o hg hIn p hp
  have hg1 : 1 ≤ g := by omega
  have finish : ∀ q : KolamPattern,
      (∀ d ∈ q.dots, inB g d) →
      (∀ pr ∈ q.connections, pr.1 ∈ q.dots ∧ pr.2 ∈ q.dots) →
      (∀ d ∈ q.dots, inB g d) ∧
      (∀ pr ∈ q.connections, inB g pr.1 ∧ inB g pr.2) := by
    intro q hd hc
    exact ⟨hd, fun pr hpr => ⟨hd _ (hc pr hpr).1, hd _ (hc pr hpr).2⟩⟩
  unfold createPatternFromAnalysis at hp
  split at hp
  · cases hp
    exact finish _ (flowerTemplate_ok hg1).1 (flowerTemplate_ok hg1).2.1
  · cases hp
    exact finish _ (lotusTemplate_ok hg hIn).1 (lotusTemplate_ok hg hIn).2.1
  · exact finish _ (starTemplate_ok hg1 hp).1 (starTemplate_ok hg1 hp).2.1
  · cases hp
    exact finish _ (diamondTemplate_ok hg1).1 (diamondTemplate_ok hg1).2.1
  · cases hp
    exact finish _ spiralTemplate_ok.1 spiralTemplate_ok.2.1
  · cases hp
    exact finish _ (mandalaTemplate_ok hg1).1 (mandalaTemplate_ok hg1).2.1
  · cases hp
    exact finish _ geometricTemplate_ok.1 geometricTemplate_ok.2.1
  · cases hp
    exact finish _ (flowerTemplate_ok hg1).1 (flowerTemplate_ok hg1).2.1
  · cases hp
    exact finish _ geometricTemplate_ok.1 geometricTemplate_ok.2.1

/-- Witness for C2 at a concrete lotus request on a 7-grid. -/
theorem c2_bounds_witness :
    (∀ d ∈ (lotusTemplate ⟨some "lotus", none, none, none, none, none⟩ 7
        zeroOffs).dots, inB 7 d) ∧
    (∀ pr ∈ (lotusTemplate ⟨some "lotus", none, none, none, none, none⟩ 7
        zeroOffs).connections, inB 7 pr.1 ∧ inB 7 pr.2) :=
  c2_bounds ⟨some "lotus", none, none, none, none, none⟩ 7 zeroOffs
    (by decide)
    (fun i => ⟨fltZero_absLe (by decide), fltZero_absLe (by decide)⟩)
    (lotusTemplate ⟨some "lotus", none, none, none, none, none⟩ 7 zeroOffs) rfl

/-- C7: the dot collection of every synthesized pattern contains no repeated
`(x, y)` pair — the radial generators pass their dot list through
`list(set(...))`, and the geometric generator's grid is duplicate free by
construction; connections remain a sequence that may repeat. -/
theorem c7_nodup_dots :
    ∀ (a : Analysis) (g : ℕ) (o : Offs) (p : KolamPattern),
      createPatternFromAnalysis a g o = some p → p.dots.Nodup := by
  intro a g o p hp
  unfold createPatternFromAnalysis at hp
  split at hp
  · cases hp
    rw [flowerTemplate_dots]
    exact List.nodup_dedup _
  · cases hp
    rw [lotusTemplate_dots]
    exact List.nodup_dedup _
  · obtain ⟨ps, hps, hdots, _⟩ := starTemplate_some hp
    rw [hdots]
    exact List.nodup_dedup _
  · cases hp
    rw [diamondTemplate_dots]
    unfold diamondDots
    exact List.nodup_dedup _
  · cases hp
    rw [spiralTemplate_dots]
    exact List.nodup_dedup _
  · cases hp
    rw [mandalaTemplate_dots]
    exact List.nodup_dedup _
  · cases hp
    exact geometricTemplate_ok.2.2
  · cases hp
    show (flowerTemplate _ g o).dots.Nodup
    rw [flowerTemplate_dots]
    exact List.nodup_dedup _
  · cases hp
    exact geometricTemplate_ok.2.2

/-- Witness for C7 at the geometric generator on a 7-grid. -/
theorem c7_nodup_dots_witness :
    (geometricTemplate ⟨some "geometric", none, none, none, none, none⟩
        7).dots.Nodup :=
  c7_nodup_dots ⟨some "geometric", none, none, none, none, none⟩ 7 zeroOffs
    (geometricTemplate ⟨some "geometric", none, none, none, none, none⟩ 7) rfl

/-- C10: both endpoints of every connection of a synthesized pattern are
members of the pattern's dot collection (flower curve points, lotus
outer-to-inner links, star zig-zag endpoints, mandala ring and centre links
included).  The lotus hypothesis covers the one unguarded endpoint. -/
theorem c10_endpoints_in_dots :
    ∀ (a : Analysis) (g : ℕ) (o : Offs),
      3 ≤ g →
      (∀ i, (o.lotusInner i).1.AbsLe (lotusInnerRadius g) ∧
            (o.lotusInner i).2.AbsLe (lotusInnerRadius g)) →
      ∀ p, createPatternFromAnalysis a g o = some p →
        ∀ pr ∈ p.connections, pr.1 ∈ p.dots ∧ pr.2 ∈ p.dots := by
  intro a g o hg hIn p hp
  have hg1 : 1 ≤ g := by omega
  unfold createPatternFromAnalysis at hp
  split at hp
  · cases hp
    exact (flowerTemplate_ok hg1).2.1
  · cases hp
    exact (lotusTemplate_ok hg hIn).2.1
  · exact (starTemplate_ok hg1 hp).2.1
  · cases hp
    exact (diamondTemplate_ok hg1).2.1
  · cases hp
    exact spiralTemplate_ok.2.1
  · cases hp
    exact (mandalaTemplate_ok hg1).2.1
  · cases hp
    exact geometricTemplate_ok.2.1
  · cases hp
    exact (flowerTemplate_ok hg1).2.1
  · cases hp
    exact geometricTemplate_ok.2.1

/-- Witness for C10: both endpoints of the first connection of a concrete
grid-7 lotus synthesis are dots of the pattern. -/
theorem c10_endpoints_in_dots_witness :
    ((3, 3) : Dot) ∈ (lotusTemplate ⟨some "lotus", none, none, none, none,
        none⟩ 7 zeroOffs).dots ∧
    ((3, 3) : Dot) ∈ (lotusTemplate ⟨some "lotus", none, none, none, none,
        none⟩ 7 zeroOffs).dots :=
  c10_endpoints_in_dots ⟨some "lotus", none, none, none, none, none⟩ 7
    zeroOffs (by decide)
    (fun i => ⟨fltZero_absLe (by decide), fltZero_absLe (by decide)⟩)
    (lotusTemplate ⟨some "lotus", none, none, none, none, none⟩ 7 zeroOffs) rfl
    (((3, 3) : Dot), ((3, 3) : Dot)) (by decide)

/-! The discretization rule: code versus specification wording. -/

/-- The code's discretization rule: `center + int(radius*cos(angle))` —
truncation applies to the offset before the integer centre is added. -/
def codeDiscretize (center : ℤ) (f : Flt) : ℤ := center + f.trunc

/-- Modelled from the spec: the claim's literal discretization rule, which
converts the floating-point coordinate `center + radius*cos(angle)` to a
lattice value by truncating the sum toward zero. -/
def specDiscretize (center : ℤ) (f : Flt) : ℤ :=
  Flt.trunc ⟨center * f.den + f.num, f.den⟩

theorem trunc_eq_floor {f : Flt} (hd : 0 < f.den) (hn : 0 ≤ f.num) :
    f.trunc = ⌊(f.num : ℚ) / (f.den : ℚ)⌋ := by
  have hden : ((f.den : ℤ) : ℚ) = ((f.den.toNat : ℕ) : ℚ) := by
    exact_mod_cast congrArg (fun z : ℤ => (z : ℚ))
      (Int.toNat_of_nonneg hd.le).symm
  rw [hden, Rat.floor_intCast_div_natCast]
  unfold Flt.trunc
  rw [Int.tdiv_eq_ediv hn hd.le, Int.toNat_of_nonneg hd.le]

theorem trunc_eq_ceil {f : Flt} (hd : 0 < f.den) (hn : f.num ≤ 0) :
    f.trunc = ⌈(f.num : ℚ) / (f.den : ℚ)⌉ := by
  have h1 : f.trunc = -((Flt.mk (-f.num) f.den).trunc) := by
    unfold Flt.trunc
    simp [Int.neg_tdiv]
  rw [h1, @trunc_eq_floor ⟨-f.num, f.den⟩ hd (by simpa using hn)]
  have h2 : (((Flt.mk (-f.num) f.den).num : ℤ) : ℚ) / (((Flt.mk (-f.num) f.den).den : ℤ) : ℚ)
      = -((f.num : ℚ) / (f.den : ℚ)) := by
    show ((-f.num : ℤ) : ℚ) / ((f.den : ℤ) : ℚ) = _
    push_cast
    ring
  rw [h2, Int.floor_neg, neg_neg]

/-- The Python float values of `2*cos(2*pi*i/8)` and `2*sin(2*pi*i/8)` driving
the flower petal loop at grid 7, complexity 5, petal count 8 (petal radius
2), quoted to the printed precision of the IEEE doubles; every truncation
performed on them is far from an integer boundary, so it is insensitive to
the quoting error in the final ulps. -/
def flowerPetalOffsG7 : ℕ → Flt × Flt
  | 0 => (⟨2, 1⟩, ⟨0, 1⟩)
  | 1 => (⟨14142135623730951, 10000000000000000⟩,
          ⟨14142135623730951, 10000000000000000⟩)
  | 2 => (⟨12246467991473532, 100000000000000000000000000000000⟩, ⟨2, 1⟩)
  | 3 => (⟨-14142135623730951, 10000000000000000⟩,
          ⟨14142135623730951, 10000000000000000⟩)
  | 4 => (⟨-2, 1⟩, ⟨24492935982947064, 100000000000000000000000000000000⟩)
  | 5 => (⟨-14142135623730954, 10000000000000000⟩,
          ⟨-14142135623730951, 10000000000000000⟩)
  | 6 => (⟨-36739403974420594, 100000000000000000000000000000000⟩, ⟨-2, 1⟩)
  | 7 => (⟨14142135623730947, 10000000000000000⟩,
          ⟨-14142135623730958, 10000000000000000⟩)
  | _ => (fltZero, fltZero)

/-- The flower offset bundle of a grid-7, complexity-5, 8-petal request. -/
def offsFlowerG7 : Offs := { zeroOffs with flowerPetal := flowerPetalOffsG7 }

/-- C3 counterexample: the code computes `center + int(offset)`, not
`int(center + offset)`.  For the petal `i = 3` of a grid-7 flower
(offset `2*cos(3*pi/4) = -1.4142135623730951`), the code retains the dot with
x-coordinate `3 + int(-1.414...) = 2`, whereas the claim's rule
`int(3 - 1.414...) = 1` predicts 1; the synthesized pattern contains the dot
`(2, 4)` and no dot `(1, 4)`. -/
theorem c3_truncation_counterexample :
    codeDiscretize 3 ⟨-14142135623730951, 10000000000000000⟩ = 2
    ∧ specDiscretize 3 ⟨-14142135623730951, 10000000000000000⟩ = 1
    ∧ ((2 : ℤ), (4 : ℤ)) ∈
        (flowerTemplate ⟨some "flower", none, some 5, some 8, none, none⟩ 7
          offsFlowerG7).dots
    ∧ ((1 : ℤ), (4 : ℤ)) ∉
        (flowerTemplate ⟨some "flower", none, some 5, some 8, none, none⟩ 7
          offsFlowerG7).dots :=
  ⟨by decide, by decide, by decide, by decide⟩

/-- C3 amended: every radial generator discretizes a float polar candidate by
truncating each offset `radius*cos/sin(angle)` toward zero independently and
then adding the integer centre (`center + int(offset)`, not
`int(center + offset)`); the candidate — and any connection to it — is
silently discarded, never clamped, when either coordinate leaves
`[0, gridSize)`; truncation toward zero is floor on nonnegative values and
ceiling on nonpositive ones (not rounding); and callers may receive fewer
dots than requested (the flower petal list never exceeds the petal count and
consists exactly of the retained in-bounds candidates). -/
theorem c3_truncate_discard_amended :
    ∀ (g : ℕ) (center : ℤ) (off : Flt × Flt),
      (∀ d, polarCandidate g center off = some d →
        d = (codeDiscretize center off.1, codeDiscretize center off.2)
          ∧ inB g d)
      ∧ (polarCandidate g center off = none ↔
          ¬ inB g (codeDiscretize center off.1, codeDiscretize center off.2))
      ∧ (∀ f : Flt, 0 < f.den → 0 ≤ f.num →
          f.trunc = ⌊(f.num : ℚ) / (f.den : ℚ)⌋)
      ∧ (∀ f : Flt, 0 < f.den → f.num ≤ 0 →
          f.trunc = ⌈(f.num : ℚ) / (f.den : ℚ)⌉)
      ∧ (∀ (n : ℕ) (oP : ℕ → Flt × Flt), (flowerPetalPts g n oP).length ≤ n)
      ∧ (∀ (n : ℕ) (oP : ℕ → Flt × Flt) (d : Dot),
          d ∈ flowerPetalPts g n oP ↔
            ∃ i, i < n ∧ polarCandidate g (ctr g) (oP i) = some d) := by
  intro g center off
  refine ⟨?_, ?_, fun f hd hn => trunc_eq_floor hd hn,
          fun f hd hn => trunc_eq_ceil hd hn, ?_, ?_⟩
  · intro d hd
    exact polarCandidate_some_eq hd
  · exact polarCandidate_none_iff
  · intro n oP
    unfold flowerPetalPts
    calc ((List.range n).filterMap
            fun i => polarCandidate g (ctr g) (oP i)).length
        ≤ (List.range n).length := List.length_filterMap_le _ _
      _ = n := List.length_range n
  · intro n oP d
    unfold flowerPetalPts
    rw [List.mem_filterMap]
    constructor
    · rintro ⟨i, hi, hp⟩
      exact ⟨i, List.mem_range.mp hi, hp⟩
    · rintro ⟨i, hi, hp⟩
      exact ⟨i, List.mem_range.mpr hi, hp⟩

/-- Witness for the amended C3 theorem: truncation of `-3/2` toward zero is
the ceiling `-1`, applied through the theorem at a concrete float value. -/
theorem c3_truncate_discard_amended_witness :
    (⟨-3, 2⟩ : Flt).trunc = ⌈(((-3 : ℤ) : ℚ)) / (((2 : ℤ) : ℚ))⌉ :=
  (c3_truncate_discard_amended 7 3 (fltZero, fltZero)).2.2.2.1 ⟨-3, 2⟩
    (by decide) (by decide)

/-! Complexity monotonicity: counterexample and salvageable parts. -/

/-- The Python float values of `radius * cos(angle)` / `radius * sin(angle)`
of the spiral walk at grid 7, complexity 7 (`angle_step = 2*pi/15`,
`radius_step = 0.3 + 0.35 = 0.6499999999999999`), quoted to five decimal
places; truncations are far from integer boundaries. -/
def spiralStepOffsC7 : ℕ → Flt × Flt
  | 0 => (fltZero, fltZero)
  | 1 => (⟨59380, 100000⟩, ⟨26438, 100000⟩)
  | 2 => (⟨86987, 100000⟩, ⟨96609, 100000⟩)
  | 3 => (⟨60258, 100000⟩, ⟨185456, 100000⟩)
  | _ => (fltZero, fltZero)

/-- The corresponding float values at complexity 8 (`angle_step = 2*pi/16`,
`radius_step = 0.3 + 0.4 = 0.6999999999999999556`, the double nearest 0.7). -/
def spiralStepOffsC8 : ℕ → Flt × Flt
  | 0 => (fltZero, fltZero)
  | 1 => (⟨64672, 100000⟩, ⟨26788, 100000⟩)
  | 2 => (⟨98995, 100000⟩, ⟨98995, 100000⟩)
  | _ => (fltZero, fltZero)

/-- The Python float values of `radius = i * radius_step` at complexity 7:
`radius_step = 0.3 + 0.35` ties to even one ulp *below* 0.65, giving
`0.6499999999999999`; each entry is the shortest round-trip decimal of the
real double (exact to within one unit in the last quoted digit).  Every
comparison against `center - 1 = 2` of the grid-7 walk is decided with
margin at least 0.05; the walk breaks at step 4, so later entries (frozen at
the step-4 value) are never read. -/
def spiralRadC7 : ℕ → Flt
  | 0 => fltZero
  | 1 => ⟨6499999999999999, 10000000000000000⟩
  | 2 => ⟨12999999999999998, 10000000000000000⟩
  | 3 => ⟨19499999999999997, 10000000000000000⟩
  | _ => ⟨25999999999999996, 10000000000000000⟩

/-- The Python float values of `radius = i * radius_step` at complexity 8:
`radius_step = 0.3 + 0.4` ties to even to the double nearest 0.7
(`0.69999999999999995559`), so `1*step` and `2*step` print as 0.7 and 1.4
while `3*step = 2.0999999999999996`; shortest round-trip decimals, with
margin at least 0.1 against `center - 1 = 2`; the walk breaks at step 3. -/
def spiralRadC8 : ℕ → Flt
  | 0 => fltZero
  | 1 => ⟨7, 10⟩
  | 2 => ⟨14, 10⟩
  | _ => ⟨20999999999999996, 10000000000000000⟩

/-- The spiral float inputs of a grid-7 complexity-7 request. -/
def offsSpiralC7 : Offs :=
  { zeroOffs with spiralStep := spiralStepOffsC7, spiralRad := spiralRadC7 }

/-- The spiral float inputs of a grid-7 complexity-8 request. -/
def offsSpiralC8 : Offs :=
  { zeroOffs with spiralStep := spiralStepOffsC8, spiralRad := spiralRadC8 }

/-- C6 counterexample: with all other request fields fixed at grid size 7,
the spiral archetype yields 2 dots at complexity 7 (walk indices 0..3, dots
`(3,3)` and `(3,4)`) but only 1 dot at complexity 8 (walk indices 0..2, all
discretizing to `(3,3)`): raising complexity strictly decreases the dot
count, because the larger radius step makes the walk reach `center - 1` in
fewer steps and the re-discretized points collapse under deduplication. -/
theorem c6_monotonicity_counterexample :
    (spiralTemplate ⟨some "spiral", none, some 7, none, none, none⟩ 7
        offsSpiralC7).dots.length = 2
    ∧ (spiralTemplate ⟨some "spiral", none, some 8, none, none, none⟩ 7
        offsSpiralC8).dots.length = 1
    ∧ ¬ ((spiralTemplate ⟨some "spiral", none, some 7, none, none, none⟩ 7
          offsSpiralC7).dots.length ≤
        (spiralTemplate ⟨some "spiral", none, some 8, none, none, none⟩ 7
          offsSpiralC8).dots.length) :=
  ⟨by decide, by decide, by decide⟩

theorem lotusDots_subset_of_le {g n : ℕ} {o : Offs} {cx cx' : ℤ}
    (h : cx ≤ cx') :
    ∀ d ∈ lotusDots g cx n o, d ∈ lotusDots g cx' n o := by
  intro d hd
  rcases mem_lotusDots_iff.mp hd with h1 | h1 | h1
  · exact mem_lotusDots_iff.mpr (Or.inl h1)
  · exact mem_lotusDots_iff.mpr (Or.inr (Or.inl h1))
  · refine mem_lotusDots_iff.mpr (Or.inr (Or.inr ?_))
    unfold lotusOuterPart at h1 ⊢
    split at h1
    · rename_i h4
      rw [if_pos (by omega)]
      exact h1
    · cases h1

theorem dedup_length_le_of_subset {l1 l2 : List Dot}
    (h : ∀ d ∈ l1, d ∈ l2) : l1.dedup.length ≤ l2.dedup.length := by
  rw [← List.card_toFinset, ← List.card_toFinset]
  apply Finset.card_le_card
  intro x hx
  rw [List.mem_toFinset] at hx ⊢
  exact h x hx

/-- C6 amended: dot-count monotonicity in complexity holds for the
archetypes whose dot positions do not move with complexity — the geometric
grid densifies (step is antitone in complexity), the star's dots are
complexity independent, and the lotus only gains its outer ring past the
complexity-4 gate — but it fails in general (see the spiral counterexample)
because the diamond/mandala/spiral/flower re-derive positions from
complexity-dependent parameters and re-discretization can collapse more
dots. -/
theorem c6_monotonicity_amended :
    ∀ (a : Analysis) (g : ℕ) (o : Offs) (cx cx' : ℤ),
      1 ≤ g → cx ≤ cx' →
      ((geometricTemplate { a with complexity := some cx } g).dots.length ≤
        (geometricTemplate { a with complexity := some cx' } g).dots.length)
      ∧ (∀ p p', starTemplate { a with complexity := some cx } g o = some p →
          starTemplate { a with complexity := some cx' } g o = some p' →
          p.dots = p'.dots)
      ∧ ((lotusTemplate { a with complexity := some cx } g o).dots.length ≤
          (lotusTemplate { a with complexity := some cx' } g o).dots.length) := by
  intro a g o cx cx' hg hle
  refine ⟨?_, ?_, ?_⟩
  · rw [geometricTemplate_dots, geometricTemplate_dots]
    show (geometricDots g (geomStep cx).toNat).length ≤
      (geometricDots g (geomStep cx').toNat).length
    have hp := geomStep_pos cx
    have hp' := geomStep_pos cx'
    have hsx : 1 ≤ (geomStep cx).toNat := by omega
    have hsx' : 1 ≤ (geomStep cx').toNat := by omega
    rw [geometricDots_length hsx hg, geometricDots_length hsx' hg]
    have hs'le : (geomStep cx').toNat ≤ (geomStep cx).toNat := by
      have := geomStep_antitone hle
      omega
    have hL : (g + (geomStep cx).toNat - 1) / (geomStep cx).toNat ≤
        (g + (geomStep cx').toNat - 1) / (geomStep cx').toNat :=
      ceilDiv_antitone hsx' hs'le
    exact Nat.mul_le_mul hL hL
  · intro p p' hp hp'
    obtain ⟨ps, _, hd, _⟩ := starTemplate_some hp
    obtain ⟨ps', _, hd', _⟩ := starTemplate_some hp'
    rw [hd, hd']
  · rw [lotusTemplate_dots, lotusTemplate_dots]
    show (lotusDots g cx (a.count.getD 8).toNat o).dedup.length ≤
      (lotusDots g cx' (a.count.getD 8).toNat o).dedup.length
    exact dedup_length_le_of_subset (lotusDots_subset_of_le hle)

/-- Witness for the amended C6 theorem: the geometric dot count at grid 7
does not decrease from complexity 5 to complexity 6. -/
theorem c6_monotonicity_amended_witness :
    (geometricTemplate { (⟨some "geometric", none, none, none, none, none⟩
        : Analysis) with complexity := some 5 } 7).dots.length ≤
    (geometricTemplate { (⟨some "geometric", none, none, none, none, none⟩
        : Analysis) with complexity := some 6 } 7).dots.length :=
  (c6_monotonicity_amended ⟨some "geometric", none, none, none, none, none⟩
    7 zeroOffs 5 6 (by decide) (by decide)).1

/-! Spiral walk: counterexample to the unconditional stop condition, and the
amended chain/stop characterization. -/

/-- The Python float values of `radius = i * radius_step` at complexity 1:
`radius_step = 0.3 + 0.05` rounds to the double nearest 0.35; the quoted
values `i * 0.35` are within `10^-12` of the real doubles, and every
comparison against `center - 1 = 49` of the grid-101 counterexample is
decided with margin at least 41. -/
def spiralRadC1 : ℕ → Flt := fun i => ⟨(i : ℤ) * 35000, 100000⟩

/-- The spiral float inputs of a grid-101 complexity-1 request (the trig
offsets are irrelevant to the stop behaviour and are left zero). -/
def offsSpiralCap : Offs := { zeroOffs with spiralRad := spiralRadC1 }

/-- C9 counterexample: at grid size 101 and complexity 1, the spiral loop
processes exactly the 22 indices of `range(int(20 + 2*1))` and stops with
the float radius still far below `center - 1` (the break test is false even
at the next index 22, where the radius is 7.7): the walk is capped by the
iteration budget and does not continue until the radius reaches
`center - 1`; the resulting pattern chains exactly 21 connections. -/
theorem c9_spiral_cap_counterexample :
    (spiralIdx 101 1 spiralRadC1).length = 22
    ∧ ¬ spiralBreakAt 101 (spiralRadC1 22)
    ∧ (spiralTemplate ⟨some "spiral", none, some 1, none, none, none⟩ 101
        offsSpiralCap).connections.length = 21 :=
  ⟨by decide, by decide, by decide⟩

/-- C9 amended: the spiral generator performs a single discretized walk whose
angle advances by `2*pi/(8+complexity)` and whose float radius at step `i`
is `i * (0.3 + complexity/20)` (supplied as the abstract float family
`spiralRad`); consecutive retained in-bounds points are joined by exactly
one connection each (the connection list is literally the zip of the
retained point list with its tail, a single path); and the walk stops at the
earlier of the iteration cap `int(20 + 2*complexity)` and the first step
whose float radius reaches `center - 1`. -/
theorem c9_spiral_amended :
    ∀ (a : Analysis) (g : ℕ) (o : Offs),
      1 ≤ a.complexity.getD 5 → a.complexity.getD 5 ≤ 9 →
      (spiralTemplate a g o).connections =
        (spiralPts g (a.complexity.getD 5) o.spiralRad o.spiralStep).zip
          (spiralPts g (a.complexity.getD 5) o.spiralRad o.spiralStep).tail
      ∧ (spiralTemplate a g o).dots =
          (spiralPts g (a.complexity.getD 5) o.spiralRad o.spiralStep).dedup
      ∧ (spiralIdx g (a.complexity.getD 5) o.spiralRad).length =
          min (20 + 2 * a.complexity.getD 5).toNat
            (firstReach g (20 + 2 * a.complexity.getD 5).toNat o.spiralRad) := by
  intro a g o h1 h9
  exact ⟨spiralTemplate_conns a g o, spiralTemplate_dots a g o,
         spiralIdx_length g (a.complexity.getD 5) o.spiralRad⟩

/-- Witness for the amended C9 theorem at grid 7, complexity 5. -/
theorem c9_spiral_amended_witness :
    (spiralIdx 7 5 zeroOffs.spiralRad).length =
      min ((20 + 2 * (5 : ℤ)).toNat)
        (firstReach 7 ((20 + 2 * (5 : ℤ)).toNat) zeroOffs.spiralRad) :=
  (c9_spiral_amended ⟨some "spiral", none, some 5, none, none, none⟩ 7
    zeroOffs (by decide) (by decide)).2.2
